import Mathlib

/-!
Verification development for the expense-tracker budget-consistency and
recurrence-processing engine.

The definitions below are a shallow embedding of the tRPC routers
(`transactionRouter`, `budgetRouter`, `recurrenceRouter`) over the Prisma
store, specialised to the rows of one authenticated user (every query in
the source is scoped by `userId = ctx.session.user.id`, and no operation
ever touches another user's rows).

Modelling choices:
* Monetary values (`DECIMAL(12,2)` columns, Prisma `Decimal`) are modelled
  as an integer count of cents (plain `Int`): the columns hold exactly
  two fractional digits, and every operation in scope only adds, subtracts
  and sums such values, so they are closed under integer-cent arithmetic.
* `DateTime` columns are `TIMESTAMP(3)` (millisecond precision); JS `Date`
  values are modelled by `JSDate` (year, 0-based month as returned by
  `getMonth()`, 1-based day, milliseconds since midnight), compared
  lexicographically, with `setDate`/`setMonth`/`setFullYear` overflow
  normalisation reproduced.
* Record ids (`cuid()` strings) are modelled as `Nat`; the store's unique
  id generation is modelled by picking an id larger than any present.
-/

namespace ExpenseTracker

/-- Transaction type enum, from the Prisma schema. -/
inductive TxnType where
| INCOME : TxnType
| EXPENSE : TxnType
deriving Repr, DecidableEq

/-- Recurrence frequency enum, from the Prisma schema. -/
inductive Frequency where
| DAILY : Frequency
| WEEKLY : Frequency
| BIWEEKLY : Frequency
| MONTHLY : Frequency
| QUARTERLY : Frequency
| YEARLY : Frequency
deriving Repr, DecidableEq

/-- A JS `Date` / SQL `TIMESTAMP(3)` value. `month` is 0-based exactly as
returned by `Date.getMonth()`; `day` is 1-based (`getDate()`); `msOfDay`
is the number of milliseconds since local midnight. -/
structure JSDate where
  year : Int
  month : Nat
  day : Nat
  msOfDay : Nat
deriving Repr, DecidableEq

/-- Gregorian leap-year test, as used by JS date normalisation. -/
def isLeap (y : Int) : Bool :=
  y % 4 = 0 && (y % 100 != 0 || y % 400 = 0)

/-- Number of days of 0-based month `m` of year `y`. -/
def daysInMonth (y : Int) (m : Nat) : Nat :=
  if m = 0 then 31
  else if m = 1 then (if isLeap y then 29 else 28)
  else if m = 2 then 31
  else if m = 3 then 30
  else if m = 4 then 31
  else if m = 5 then 30
  else if m = 6 then 31
  else if m = 7 then 31
  else if m = 8 then 30
  else if m = 9 then 31
  else if m = 10 then 30
  else 31

/-- A calendar-valid date: month in range, day in range for its month,
time of day below 24h. -/
def JSDate.Valid (d : JSDate) : Prop :=
  d.month < 12 ∧ 1 ≤ d.day ∧ d.day ≤ daysInMonth d.year d.month ∧ d.msOfDay < 86400000

instance (d : JSDate) : Decidable d.Valid := by
  unfold JSDate.Valid; infer_instance

/-- Calendar successor of a date (what `setDate(getDate() + 1)` computes),
keeping the time of day. -/
def nextDay (d : JSDate) : JSDate :=
  if d.day < daysInMonth d.year d.month then
    { d with day := d.day + 1 }
  else if d.month < 11 then
    { d with month := d.month + 1, day := 1 }
  else
    { year := d.year + 1, month := 0, day := 1, msOfDay := d.msOfDay }

/-- `setDate(getDate() + n)` for a nonnegative offset: `n` calendar-day
successors. -/
def addDays (d : JSDate) (n : Nat) : JSDate :=
  nextDay^[n] d

/-- JS day-overflow normalisation: a (year, month, day) triple whose day may
exceed the month length rolls the excess into the following month. Since
the day never exceeds 31 and every month has at least 28 days, one roll
suffices, exactly as in the engine's inputs. -/
def normMD (y : Int) (m : Nat) (day : Nat) (ms : Nat) : JSDate :=
  if day ≤ daysInMonth y m then ⟨y, m, day, ms⟩
  else if m = 11 then ⟨y + 1, 0, day - daysInMonth y m, ms⟩
  else ⟨y, m + 1, day - daysInMonth y m, ms⟩

/-- `setMonth(getMonth() + k)`: advance `k` calendar months keeping the
day-of-month, then apply JS overflow normalisation. -/
def setMonthJS (d : JSDate) (k : Nat) : JSDate :=
  let t := d.month + k
  normMD (d.year + (t : Int) / 12) (t % 12) d.day d.msOfDay

/-- `setFullYear(getFullYear() + k)`: advance `k` years keeping month and
day, then apply JS overflow normalisation (Feb 29 of a leap year rolls to
Mar 1 of a non-leap target year). -/
def setFullYearJS (d : JSDate) (k : Nat) : JSDate :=
  normMD (d.year + k) d.month d.day d.msOfDay

/-- Embedding of `calculateNextDueDate` from
`src/pages/api/trpc/routers/recurrence.ts`: one period forward from
`currentDate` according to `frequency`, via the JS `Date` mutators. -/
def calculateNextDueDate (currentDate : JSDate) (frequency : Frequency) : JSDate :=
  match frequency with
  | .DAILY => addDays currentDate 1
  | .WEEKLY => addDays currentDate 7
  | .BIWEEKLY => addDays currentDate 14
  | .MONTHLY => setMonthJS currentDate 1
  | .QUARTERLY => setMonthJS currentDate 3
  | .YEARLY => setFullYearJS currentDate 1

/-- Lexicographic order on timestamps, the order used by the store when
comparing `DateTime` values (`lte` / `gte` filters). -/
def JSDate.le (a b : JSDate) : Prop :=
  a.year < b.year ∨ (a.year = b.year ∧
    (a.month < b.month ∨ (a.month = b.month ∧
      (a.day < b.day ∨ (a.day = b.day ∧ a.msOfDay ≤ b.msOfDay)))))

instance (a b : JSDate) : Decidable (a.le b) := by
  unfold JSDate.le; infer_instance

/-- Strict lexicographic order on timestamps. -/
def JSDate.lt (a b : JSDate) : Prop :=
  a.year < b.year ∨ (a.year = b.year ∧
    (a.month < b.month ∨ (a.month = b.month ∧
      (a.day < b.day ∨ (a.day = b.day ∧ a.msOfDay < b.msOfDay)))))

instance (a b : JSDate) : Decidable (a.lt b) := by
  unfold JSDate.lt; infer_instance

/-- Boolean timestamp comparison used inside store query filters. -/
def dateLE (a b : JSDate) : Bool := decide (a.le b)

/-- Boolean strict timestamp comparison. -/
def dateLT (a b : JSDate) : Bool := decide (a.lt b)

/-- Number of leap years `k` with `0 ≤ k < y`, for `0 ≤ y`. -/
def leapsBefore (y : Int) : Int :=
  (y + 3) / 4 - (y + 99) / 100 + (y + 399) / 400

/-- Days in year `y` before 0-based month `m`. -/
def daysBeforeMonth (y : Int) : Nat → Nat
  | 0 => 0
  | m + 1 => daysBeforeMonth y m + daysInMonth y m

/-- Ordinal day number of a date (days since 1 Jan of year 0, proleptic
Gregorian), giving calendar-day arithmetic an absolute meaning. -/
def epochDays (d : JSDate) : Int :=
  365 * d.year + leapsBefore d.year + (daysBeforeMonth d.year d.month : Int) + (d.day : Int) - 1

/-- A `Transaction` row of the authenticated user. -/
structure Txn where
  id : Nat
  categoryId : Nat
  amount : Int
  type : TxnType
  description : Option String
  date : JSDate
  recurrenceId : Option Nat
deriving Repr, DecidableEq

/-- A `Budget` row of the authenticated user. `month` is 1-based (as
stored), uniquely keyed per user by (categoryId, month, year). -/
structure Budget where
  categoryId : Nat
  month : Nat
  year : Int
  amount : Int
  spent : Int
deriving Repr, DecidableEq

/-- A `Recurrence` row of the authenticated user. -/
structure Recurrence where
  id : Nat
  categoryId : Nat
  amount : Int
  type : TxnType
  description : Option String
  frequency : Frequency
  startDate : JSDate
  endDate : Option JSDate
  nextDueDate : JSDate
  isActive : Bool
deriving Repr, DecidableEq

/-- The authenticated user's slice of the store: owned category ids and the
three row tables. -/
structure State where
  cats : List Nat
  txns : List Txn
  budgets : List Budget
  recs : List Recurrence
deriving Repr, DecidableEq

/-- Error kinds surfaced by the routers (`TRPCError` codes relevant to the
engine; zod input rejection is `validation`). -/
inductive Err where
| notFound : Err
| validation : Err
deriving Repr, DecidableEq

/-- The budget key month of a transaction date: `date.getMonth() + 1`, as
computed in `transactionRouter` and `recurrenceRouter`. -/
def monthOf (d : JSDate) : Nat := d.month + 1

/-- The `where` clause of the `budget.updateMany` calls: does budget `b`
have key (categoryId, month, year)? -/
def budgetMatches (cid : Nat) (m : Nat) (y : Int) (b : Budget) : Bool :=
  b.categoryId == cid && b.month == m && b.year == y

/-- Embedding of the `budget.updateMany` ledger adjustment: add `delta` to
`spent` on every budget row with the given key (silently a no-op when no
row matches). -/
def applyDelta (bs : List Budget) (cid : Nat) (m : Nat) (y : Int) (delta : Int) : List Budget :=
  bs.map fun b => if budgetMatches cid m y b then { b with spent := b.spent + delta } else b

/-- A fresh row id: strictly larger than every transaction id present
(models the store's unique id generation). -/
def freshTxnId (s : State) : Nat :=
  (s.txns.map Txn.id).foldr (fun a b => max a b) 0 + 1

/-- Embedding of `transactionRouter.create`: validate the amount (zod
`positive()`), check category ownership (`NOT_FOUND` otherwise), persist
the transaction, and if it is an EXPENSE increment the matching budget's
`spent` by the amount inside the same store transaction. -/
def createTxn (s : State) (categoryId : Nat) (amount : Int) (type : TxnType)
    (description : Option String) (date : JSDate) : Except Err State :=
  if amount ≤ 0 then .error .validation
  else if categoryId ∈ s.cats then
    let t : Txn := ⟨freshTxnId s, categoryId, amount, type, description, date, none⟩
    let budgets := if type = .EXPENSE then
        applyDelta s.budgets categoryId (monthOf date) date.year amount
      else s.budgets
    .ok { s with txns := s.txns ++ [t], budgets := budgets }
  else .error .notFound

/-- The parsed input of `transactionRouter.update`: besides the id, each
field is present (`some`) or absent (`none`), as after zod parsing. -/
structure UpdateIn where
  id : Nat
  categoryId : Option Nat
  amount : Option Int
  type : Option TxnType
  description : Option String
  date : Option JSDate
deriving Repr, DecidableEq

/-- The transaction row after `tx.transaction.update` applies the provided
fields of `u` over `existing`. -/
def appliedTxn (u : UpdateIn) (existing : Txn) : Txn :=
  { existing with
      categoryId := u.categoryId.getD existing.categoryId
      amount := u.amount.getD existing.amount
      type := u.type.getD existing.type
      description := match u.description with
        | some dsc => some dsc
        | none => existing.description
      date := u.date.getD existing.date }

/-- Embedding of `transactionRouter.update`: reject nonpositive amounts
(zod), find the owned transaction (`NOT_FOUND` otherwise), check new
category ownership when provided, then atomically (a) decrement the old
budget if the old type was EXPENSE, (b) apply the field changes, and
(c) increment the new budget if the resulting type is EXPENSE. -/
def updateTxn (s : State) (u : UpdateIn) : Except Err State :=
  if u.amount.any (fun a => decide (a ≤ 0)) then .error .validation
  else match s.txns.find? (fun t => t.id == u.id) with
  | none => .error .notFound
  | some existing =>
    if u.categoryId.any (fun c => decide (c ∉ s.cats)) then .error .notFound
    else
      let bs1 := if existing.type = .EXPENSE then
          applyDelta s.budgets existing.categoryId (monthOf existing.date)
            existing.date.year (-existing.amount)
        else s.budgets
      let newt := appliedTxn u existing
      let txns := s.txns.map (fun t => if t.id == u.id then newt else t)
      let newType := u.type.getD existing.type
      let newDate := u.date.getD existing.date
      let bs2 := if newType = .EXPENSE then
          applyDelta bs1 (u.categoryId.getD existing.categoryId) (monthOf newDate)
            newDate.year (u.amount.getD existing.amount)
        else bs1
      .ok { s with txns := txns, budgets := bs2 }

/-- Embedding of `transactionRouter.delete`: find the owned transaction
(`NOT_FOUND` otherwise), then atomically decrement the matching budget if
it was an EXPENSE and delete the row. -/
def deleteTxn (s : State) (i : Nat) : Except Err State :=
  match s.txns.find? (fun t => t.id == i) with
  | none => .error .notFound
  | some t =>
    let bs := if t.type = .EXPENSE then
        applyDelta s.budgets t.categoryId (monthOf t.date) t.date.year (-t.amount)
      else s.budgets
    .ok { s with txns := s.txns.filter (fun x => !(x.id == i)), budgets := bs }

/-- One transaction-mutation request, as in claim C1's operation sequences. -/
inductive TxOp where
| create (categoryId : Nat) (amount : Int) (type : TxnType)
    (description : Option String) (date : JSDate) : TxOp
| update (u : UpdateIn) : TxOp
| delete (i : Nat) : TxOp
deriving Repr

/-- Run one request against the store; a request that errors performs no
mutation (the routers throw before or atomically around all writes). -/
def runOp (s : State) (op : TxOp) : State :=
  match op with
  | .create cid a ty dsc dt =>
    match createTxn s cid a ty dsc dt with
    | .ok s' => s'
    | .error _ => s
  | .update u =>
    match updateTxn s u with
    | .ok s' => s'
    | .error _ => s
  | .delete i =>
    match deleteTxn s i with
    | .ok s' => s'
    | .error _ => s

/-- Run a sequence of transaction-mutation requests. -/
def runOps (s : State) (ops : List TxOp) : State :=
  ops.foldl runOp s

/-- The EXPENSE contribution of transaction `t` to the budget key
(cid, m, y) under the routers' month attribution (`getMonth() + 1`,
`getFullYear()`). -/
def contrib (t : Txn) (cid : Nat) (m : Nat) (y : Int) : Int :=
  if t.type == TxnType.EXPENSE && t.categoryId == cid && monthOf t.date == m && t.date.year == y
  then t.amount else 0

/-- Sum of the amounts of the surviving EXPENSE transactions attributed to
budget key (cid, m, y) by the routers' month attribution. -/
def keySum (ts : List Txn) (cid : Nat) (m : Nat) (y : Int) : Int :=
  ((ts.filter (fun t =>
    t.type == TxnType.EXPENSE && t.categoryId == cid
      && monthOf t.date == m && t.date.year == y)).map Txn.amount).sum

/-- First instant of the query window of `budget.recalculateSpent` and
`budget.getOrCreate`: `new Date(year, month - 1, 1)` (for 1-based `month`
between 1 and 12). -/
def recalcStart (m : Nat) (y : Int) : JSDate := ⟨y, m - 1, 1, 0⟩

/-- Last instant of the query window: `new Date(year, month, 0, 23, 59, 59)`
is the last day of the (1-based) month at 23:59:59.000 — the milliseconds
field defaults to 0. -/
def recalcEnd (m : Nat) (y : Int) : JSDate := ⟨y, m - 1, daysInMonth y (m - 1), 86399000⟩

/-- The `date: { gte: startDate, lte: endDate }` filter of the spent
aggregation queries. -/
def inRange (m : Nat) (y : Int) (d : JSDate) : Bool :=
  dateLE (recalcStart m y) d && dateLE d (recalcEnd m y)

/-- The `_sum` aggregate of `budget.recalculateSpent` / `budget.getOrCreate`:
sum of the user's EXPENSE transaction amounts in the category whose date
lies in the month's query window. -/
def recalcSum (ts : List Txn) (cid : Nat) (m : Nat) (y : Int) : Int :=
  ((ts.filter (fun t =>
    t.type == TxnType.EXPENSE && t.categoryId == cid && inRange m y t.date)).map Txn.amount).sum

/-- Embedding of `budgetRouter.recalculateSpent`: every budget row of the
given month/year gets `spent` rewritten to the aggregate of matching
EXPENSE transactions in the query window. -/
def recalculateSpent (s : State) (m : Nat) (y : Int) : State :=
  { s with budgets := s.budgets.map (fun b =>
      if b.month == m && b.year == y then
        { b with spent := recalcSum s.txns b.categoryId m y }
      else b) }

/-- Embedding of `budgetRouter.getOrCreate`: validate (zod `nonnegative`,
amount defaulting to 0 when omitted), check category ownership, recompute
the spent aggregate for the key, then upsert: update `amount` and `spent`
of the existing row, or insert a new row. -/
def getOrCreate (s : State) (cid : Nat) (m : Nat) (y : Int) (amountIn : Option Int) :
    Except Err State :=
  if amountIn.any (fun a => decide (a < 0)) then .error .validation
  else if cid ∈ s.cats then
    let amount := amountIn.getD 0
    let spent := recalcSum s.txns cid m y
    if s.budgets.any (budgetMatches cid m y) then
      .ok { s with budgets := s.budgets.map (fun b =>
        if budgetMatches cid m y b then { b with amount := amount, spent := spent } else b) }
    else
      .ok { s with budgets := s.budgets ++ [⟨cid, m, y, amount, spent⟩] }
  else .error .notFound

/-- One step of the `copyFromPreviousMonth` upsert batch: `create` inserts
a target-month copy with `spent = 0`, `update: {}` leaves an existing
target-month row untouched. -/
def copyStep (tm : Nat) (ty : Int) (bs : List Budget) (pb : Budget) : List Budget :=
  if bs.any (budgetMatches pb.categoryId tm ty) then bs
  else bs ++ [⟨pb.categoryId, tm, ty, pb.amount, 0⟩]

/-- Embedding of `budgetRouter.copyFromPreviousMonth`: compute the source
month (target month minus one, rolling the year backward at January), load
its budgets, fail `NOT_FOUND` when there are none, otherwise upsert a copy
of each into the target month. -/
def copyFromPreviousMonth (s : State) (tm : Nat) (ty : Int) : Except Err State :=
  let sm := if tm - 1 = 0 then 12 else tm - 1
  let sy := if tm - 1 = 0 then ty - 1 else ty
  let prev := s.budgets.filter (fun b => b.month == sm && b.year == sy)
  if prev.isEmpty then .error .notFound
  else .ok { s with budgets := prev.foldl (copyStep tm ty) s.budgets }

/-- The due-selection predicate of `recurrenceRouter.processDue`:
`isActive: true`, `nextDueDate: { lte: now }`, and
`OR: [{ endDate: null }, { endDate: { gte: now } }]`. -/
def dueB (now : JSDate) (r : Recurrence) : Bool :=
  r.isActive && dateLE r.nextDueDate now &&
    (match r.endDate with
     | none => true
     | some e => dateLE now e)

/-- The transaction `processDue` creates for a due recurrence: dated at the
recurrence's current `nextDueDate` (not at the clock), carrying its
category, amount, type and description, with a back-reference to the
recurrence. -/
def mkRecTxn (nid : Nat) (r : Recurrence) : Txn :=
  ⟨nid, r.categoryId, r.amount, r.type, r.description, r.nextDueDate, some r.id⟩

/-- The `shouldDeactivate` flag of `processDue`:
`recurrence.endDate && nextDueDate > recurrence.endDate` for the advanced
candidate date. -/
def shouldDeactivate (r : Recurrence) : Bool :=
  match r.endDate with
  | some e => dateLT e (calculateNextDueDate r.nextDueDate r.frequency)
  | none => false

/-- The recurrence row after its `processDue` iteration persists
`{ nextDueDate: candidateNext, isActive: !shouldDeactivate }`. -/
def advanceRec (r : Recurrence) : Recurrence :=
  { r with nextDueDate := calculateNextDueDate r.nextDueDate r.frequency,
           isActive := !shouldDeactivate r }

/-- One loop iteration of `processDue` over a due recurrence `r` (a
snapshot from the selection query): create the dated transaction, apply
the budget delta when `r` is an EXPENSE, then persist the advanced
`nextDueDate` and `isActive` on the row with `r`'s id. The accumulator
carries the store state, the `created` result list and the next fresh
transaction id. -/
def processStep (acc : State × List (Nat × Nat × Int) × Nat) (r : Recurrence) :
    State × List (Nat × Nat × Int) × Nat :=
  let s := acc.1
  let created := acc.2.1
  let nid := acc.2.2
  let s1 := { s with txns := s.txns ++ [mkRecTxn nid r] }
  let s2 := if r.type = .EXPENSE then
      { s1 with budgets := (applyDelta s1.budgets r.categoryId (monthOf r.nextDueDate)
          r.nextDueDate.year r.amount) }
    else s1
  let s3 := { s2 with recs := s2.recs.map (fun q =>
      if q.id == r.id then
        { q with nextDueDate := calculateNextDueDate r.nextDueDate r.frequency,
                 isActive := !shouldDeactivate r }
      else q) }
  (s3, created ++ [(r.id, nid, r.amount)], nid + 1)

/-- Embedding of `recurrenceRouter.processDue`: select the due recurrences,
run the loop atomically, and return the new state together with
`{ processed: results.length, transactions: results }` where each result
tuple is (recurrenceId, transactionId, amount). -/
def processDue (s : State) (now : JSDate) : State × Nat × List (Nat × Nat × Int) :=
  let due := s.recs.filter (dueB now)
  let res := due.foldl processStep (s, [], freshTxnId s)
  (res.1, res.2.1.length, res.2.1)

/-- The parsed input of `recurrenceRouter.update` (`startDate` is not
updatable; `endDate` is nullable-optional, so `some none` clears it). -/
structure RecUpdateIn where
  id : Nat
  categoryId : Option Nat
  amount : Option Int
  type : Option TxnType
  description : Option String
  frequency : Option Frequency
  endDate : Option (Option JSDate)
  isActive : Option Bool
deriving Repr, DecidableEq

/-- Embedding of `recurrenceRouter.update`: the manual mutation that can
(re)activate or deactivate a recurrence and edit its fields. -/
def recurrenceUpdate (s : State) (u : RecUpdateIn) : Except Err State :=
  if u.amount.any (fun a => decide (a ≤ 0)) then .error .validation
  else match s.recs.find? (fun r => r.id == u.id) with
  | none => .error .notFound
  | some _ =>
    if u.categoryId.any (fun c => decide (c ∉ s.cats)) then .error .notFound
    else .ok { s with recs := s.recs.map (fun r =>
        if r.id == u.id then
          { r with categoryId := u.categoryId.getD r.categoryId,
                   amount := u.amount.getD r.amount,
                   type := u.type.getD r.type,
                   description := match u.description with
                     | some dsc => some dsc
                     | none => r.description,
                   frequency := u.frequency.getD r.frequency,
                   endDate := u.endDate.getD r.endDate,
                   isActive := u.isActive.getD r.isActive }
        else r) }

/-- The list of transactions a `processDue` loop creates from the due list,
with sequentially assigned fresh ids. -/
def expectedTxns (nid : Nat) : List Recurrence → List Txn
  | [] => []
  | r :: l => mkRecTxn nid r :: expectedTxns (nid + 1) l

/-- The result tuples a `processDue` loop reports for the due list. -/
def expectedTuples (nid : Nat) : List Recurrence → List (Nat × Nat × Int)
  | [] => []
  | r :: l => (r.id, nid, r.amount) :: expectedTuples (nid + 1) l

/-- The budget-ledger effect of one due recurrence: an EXPENSE applies its
delta at its due-date key, an INCOME leaves the budgets alone. -/
def processBudgets (bs : List Budget) (r : Recurrence) : List Budget :=
  if r.type = .EXPENSE then
    applyDelta bs r.categoryId (monthOf r.nextDueDate) r.nextDueDate.year r.amount
  else bs

/-- Linear month index of a date, for stating month advancement. -/
def monthIdx (d : JSDate) : Int := 12 * d.year + d.month

/-- Every month has at least 28 days. -/
theorem daysInMonth_ge (y : Int) (m : Nat) : 28 ≤ daysInMonth y m := by
  rcases m with _|_|_|_|_|_|_|_|_|_|_|m
  all_goals simp [daysInMonth]
  all_goals split_ifs <;> omega

/-- Every month has at most 31 days. -/
theorem daysInMonth_le (y : Int) (m : Nat) : daysInMonth y m ≤ 31 := by
  rcases m with _|_|_|_|_|_|_|_|_|_|_|m
  all_goals simp [daysInMonth]
  all_goals split_ifs <;> omega

/-- The leap-year count increases across year `y` exactly when `y` is leap. -/
theorem leapsBefore_succ (y : Int) :
    leapsBefore (y + 1) = leapsBefore y + (if isLeap y then 1 else 0) := by
  unfold leapsBefore isLeap
  simp only [Bool.and_eq_true, Bool.or_eq_true, decide_eq_true_eq, bne_iff_ne]
  split_ifs with h
  · omega
  · omega

/-- February length in terms of the leap-year test. -/
theorem daysInMonth_feb (y : Int) : daysInMonth y 1 = if isLeap y then 29 else 28 := by
  unfold daysInMonth
  norm_num

/-- Sum of all twelve month lengths: the length of the year. -/
theorem daysBeforeMonth_twelve (y : Int) :
    daysBeforeMonth y 12 = 337 + daysInMonth y 1 := by
  show daysBeforeMonth y 12 = _
  simp [daysBeforeMonth, daysInMonth]
  split_ifs <;> omega

/-- The time of day is untouched by the calendar-day successor. -/
theorem nextDay_ms (d : JSDate) : (nextDay d).msOfDay = d.msOfDay := by
  unfold nextDay
  split_ifs <;> rfl

/-- The calendar-day successor of a valid date is valid and does not
decrease the year. -/
theorem nextDay_valid (d : JSDate) (h : d.Valid) :
    (nextDay d).Valid ∧ d.year ≤ (nextDay d).year := by
  obtain ⟨hm, hd1, hd2, hms⟩ := h
  unfold nextDay JSDate.Valid
  have h28 := daysInMonth_ge d.year d.month
  have h28' := daysInMonth_ge d.year (d.month + 1)
  have h31 := daysInMonth_le d.year d.month
  split_ifs with h1 h2
  · simp only
    omega
  · simp only
    omega
  · simp only [daysInMonth]
    norm_num
    omega

/-- The calendar-day successor advances the ordinal day number by one. -/
theorem epochDays_nextDay (d : JSDate) (h : d.Valid) :
    epochDays (nextDay d) = epochDays d + 1 := by
  obtain ⟨hm, hd1, hd2, _⟩ := h
  unfold nextDay
  split_ifs with h1 h2
  · simp [epochDays]
    omega
  · have hmx : d.month + 1 ≤ 11 := by omega
    simp only [epochDays]
    have : daysBeforeMonth d.year (d.month + 1) = daysBeforeMonth d.year d.month + daysInMonth d.year d.month := rfl
    simp only [this]
    omega
  · have hm11 : d.month = 11 := by omega
    have hdim : daysInMonth d.year 11 = 31 := by unfold daysInMonth; norm_num
    have hdm : daysInMonth d.year d.month = 31 := by rw [hm11]; exact hdim
    have hd31 : d.day = 31 := by omega
    have h11 : daysBeforeMonth d.year 11 = 306 + daysInMonth d.year 1 := by
      simp [daysBeforeMonth, daysInMonth]
      omega
    have hfeb : daysInMonth d.year 1 = if isLeap d.year then 29 else 28 := daysInMonth_feb d.year
    simp only [epochDays, leapsBefore_succ d.year, hm11, h11, hd31]
    have h0 : daysBeforeMonth (d.year + 1) 0 = 0 := rfl
    simp only [h0]
    split_ifs at hfeb ⊢ <;> omega

/-- Iterating the calendar-day successor `n` times advances the ordinal day
number by `n`, stays valid, does not decrease the year, and keeps the time
of day. -/
theorem epochDays_addDays (n : Nat) (d : JSDate) (h : d.Valid) :
    epochDays (addDays d n) = epochDays d + n ∧ (addDays d n).Valid ∧
      (addDays d n).msOfDay = d.msOfDay := by
  induction n generalizing d with
  | zero => simpa [addDays] using h
  | succ k ih =>
    have hstep : addDays d (k + 1) = addDays (nextDay d) k := by
      unfold addDays
      rw [Function.iterate_succ_apply]
    obtain ⟨hv, _⟩ := nextDay_valid d h
    obtain ⟨h1, h2, h3⟩ := ih (nextDay d) hv
    refine ⟨?_, ?_, ?_⟩
    · rw [hstep, h1, epochDays_nextDay d h]
      push_cast
      ring
    · rw [hstep]; exact h2
    · rw [hstep, h3, nextDay_ms]

/-- Characterisation of `setMonth(getMonth() + k)` when the day-of-month
fits in the target month: the month index advances by exactly `k` and the
day and time of day are preserved. -/
theorem setMonthJS_no_overflow (d : JSDate) (k : Nat)
    (h : d.day ≤ daysInMonth (d.year + ((d.month + k : Nat) : Int) / 12) ((d.month + k) % 12)) :
    setMonthJS d k = ⟨d.year + ((d.month + k : Nat) : Int) / 12, (d.month + k) % 12, d.day, d.msOfDay⟩ := by
  unfold setMonthJS normMD
  simp only [h, if_pos]

/-- The month index of a no-overflow month advancement. -/
theorem monthIdx_setMonthJS (d : JSDate) (k : Nat)
    (h : d.day ≤ daysInMonth (d.year + ((d.month + k : Nat) : Int) / 12) ((d.month + k) % 12)) :
    monthIdx (setMonthJS d k) = monthIdx d + k ∧ (setMonthJS d k).day = d.day ∧
      (setMonthJS d k).msOfDay = d.msOfDay := by
  rw [setMonthJS_no_overflow d k h]
  unfold monthIdx
  dsimp only
  refine ⟨?_, rfl, rfl⟩
  omega

/-- Characterisation of `setMonth(getMonth() + k)` when the day-of-month
overflows the target month: the date rolls into the following month by the
excess, so the month index advances by `k + 1`. -/
theorem setMonthJS_overflow (d : JSDate) (k : Nat)
    (h : daysInMonth (d.year + ((d.month + k : Nat) : Int) / 12) ((d.month + k) % 12) < d.day) :
    monthIdx (setMonthJS d k) = monthIdx d + k + 1 ∧
      (setMonthJS d k).day =
        d.day - daysInMonth (d.year + ((d.month + k : Nat) : Int) / 12) ((d.month + k) % 12) ∧
      (setMonthJS d k).msOfDay = d.msOfDay := by
  unfold setMonthJS normMD monthIdx
  dsimp only
  have hge := daysInMonth_ge (d.year + ((d.month + k : Nat) : Int) / 12) ((d.month + k) % 12)
  split_ifs with h1 h2
  · omega
  · dsimp only
    omega
  · dsimp only
    omega

/-- Composing days-additions adds the day counts. -/
theorem addDays_addDays (d : JSDate) (n m : Nat) :
    addDays (addDays d n) m = addDays d (n + m) := by
  unfold addDays
  rw [Nat.add_comm n m, Function.iterate_add_apply]

/-- With a day-of-month of at most 28 no month advancement ever overflows,
so composing two `setMonth` advancements adds the month counts. -/
theorem setMonthJS_comp (d : JSDate) (j k : Nat) (hd : d.day ≤ 28) :
    setMonthJS (setMonthJS d j) k = setMonthJS d (j + k) := by
  have h1 : d.day ≤ daysInMonth (d.year + ((d.month + j : Nat) : Int) / 12) ((d.month + j) % 12) :=
    hd.trans (daysInMonth_ge _ _)
  rw [setMonthJS_no_overflow d j h1]
  rw [setMonthJS_no_overflow
    ⟨d.year + ((d.month + j : Nat) : Int) / 12, (d.month + j) % 12, d.day, d.msOfDay⟩ k
    (hd.trans (daysInMonth_ge _ _))]
  rw [setMonthJS_no_overflow d (j + k) (hd.trans (daysInMonth_ge _ _))]
  dsimp only
  congr 1
  · omega
  · omega

/-- Characterisation of `setFullYear(getFullYear() + k)` when the day fits
in the target year's month. -/
theorem setFullYearJS_no_overflow (d : JSDate) (k : Nat)
    (h : d.day ≤ daysInMonth (d.year + k) d.month) :
    setFullYearJS d k = ⟨d.year + k, d.month, d.day, d.msOfDay⟩ := by
  unfold setFullYearJS normMD
  simp only [h, if_pos]

/-- Month lengths other than February do not depend on the year. -/
theorem daysInMonth_indep (y y' : Int) (m : Nat) (hm : m ≠ 1) :
    daysInMonth y m = daysInMonth y' m := by
  rcases m with _|_|_|_|_|_|_|_|_|_|_|m
  · rfl
  · exact absurd rfl hm
  · rfl
  · rfl
  · rfl
  · rfl
  · rfl
  · rfl
  · rfl
  · rfl
  · rfl
  · rfl

/-- A leap year is never followed by a leap year one or two years later. -/
theorem isLeap_succ_false (y : Int) (h : isLeap y = true) :
    isLeap (y + 1) = false ∧ isLeap (y + 2) = false := by
  unfold isLeap at *
  simp only [Bool.and_eq_true, Bool.or_eq_true, decide_eq_true_eq, bne_iff_ne,
    Bool.and_eq_false_iff, Bool.or_eq_false_iff, decide_eq_false_iff_not, bne_eq_false_iff_eq] at *
  omega

/-- Feb 29 rolls to Mar 1 when the target year is not leap. -/
theorem setFullYearJS_feb29 (d : JSDate) (k : Nat) (hm : d.month = 1) (hd : d.day = 29)
    (h : isLeap (d.year + k) = false) :
    setFullYearJS d k = ⟨d.year + k, 2, 1, d.msOfDay⟩ := by
  unfold setFullYearJS normMD
  rw [hm, hd]
  have h28 : daysInMonth (d.year + k) 1 = 28 := by
    rw [daysInMonth_feb, h]
    rfl
  rw [h28]
  norm_num

/-- Two `YEARLY` advancements from any valid date coincide with a single
two-year advancement, including across a Feb 29 start. -/
theorem yearly_twice (d : JSDate) (h : d.Valid) :
    calculateNextDueDate (calculateNextDueDate d Frequency.YEARLY) Frequency.YEARLY =
      setFullYearJS d 2 := by
  obtain ⟨hm, hd1, hd2, hms⟩ := h
  show setFullYearJS (setFullYearJS d 1) 1 = setFullYearJS d 2
  by_cases hfeb : d.month = 1 ∧ d.day = 29
  · obtain ⟨hm1, hd29⟩ := hfeb
    have hleap : isLeap d.year = true := by
      rw [hm1, hd29, daysInMonth_feb] at hd2
      by_contra hc
      rw [Bool.not_eq_true] at hc
      rw [hc] at hd2
      simp at hd2
    have hs := isLeap_succ_false d.year hleap
    have c1 : isLeap (d.year + ((1 : Nat) : Int)) = false := by
      push_cast
      exact hs.1
    have c2 : isLeap (d.year + ((2 : Nat) : Int)) = false := by
      push_cast
      exact hs.2
    rw [setFullYearJS_feb29 d 1 hm1 hd29 c1]
    rw [setFullYearJS_no_overflow ⟨d.year + ((1 : Nat) : Int), 2, 1, d.msOfDay⟩ 1
      (le_trans (show (1 : Nat) ≤ 28 by norm_num) (daysInMonth_ge _ _))]
    rw [setFullYearJS_feb29 d 2 hm1 hd29 c2]
    dsimp only
    congr 1
    push_cast
    ring
  · have hkey : ∀ yy : Int, d.day ≤ daysInMonth yy d.month := by
      intro yy
      by_cases hm1 : d.month = 1
      · have hne : d.day ≠ 29 := fun hc => hfeb ⟨hm1, hc⟩
        have h28 : d.day ≤ 28 := by
          rw [hm1, daysInMonth_feb] at hd2
          by_cases hl : isLeap d.year = true
          · rw [hl] at hd2
            simp at hd2
            omega
          · rw [Bool.not_eq_true] at hl
            rw [hl] at hd2
            simp at hd2
            omega
        exact h28.trans (daysInMonth_ge _ _)
      · calc d.day ≤ daysInMonth d.year d.month := hd2
          _ = daysInMonth yy d.month := daysInMonth_indep _ _ _ hm1
    rw [setFullYearJS_no_overflow d 1 (hkey _)]
    rw [setFullYearJS_no_overflow ⟨d.year + ((1 : Nat) : Int), d.month, d.day, d.msOfDay⟩ 1
      (hkey _)]
    rw [setFullYearJS_no_overflow d 2 (hkey _)]
    dsimp only
    congr 1
    push_cast
    ring

/-- The per-frequency behaviour of `calculateNextDueDate` on a valid date:
one calendar day for DAILY, seven for WEEKLY, fourteen for BIWEEKLY
(measured on the absolute day ordinal, time of day preserved); one month
index for MONTHLY and three for QUARTERLY with the day-of-month preserved
when it fits, and the JS overflow roll (one extra month, excess day)
otherwise; one year for YEARLY with month and day preserved when the day
fits, Feb 29 rolling to Mar 1. Double application composes to a single
two-period advancement for the day-based frequencies always, for the
month-based frequencies when the day-of-month is at most 28, and for
YEARLY always. -/
def Claim5Amended (d : JSDate) : Prop :=
  (epochDays (calculateNextDueDate d Frequency.DAILY) = epochDays d + 1 ∧
    (calculateNextDueDate d Frequency.DAILY).msOfDay = d.msOfDay) ∧
  (epochDays (calculateNextDueDate d Frequency.WEEKLY) = epochDays d + 7 ∧
    (calculateNextDueDate d Frequency.WEEKLY).msOfDay = d.msOfDay) ∧
  (epochDays (calculateNextDueDate d Frequency.BIWEEKLY) = epochDays d + 14 ∧
    (calculateNextDueDate d Frequency.BIWEEKLY).msOfDay = d.msOfDay) ∧
  ((d.day ≤ daysInMonth (d.year + ((d.month + 1 : Nat) : Int) / 12) ((d.month + 1) % 12) →
      monthIdx (calculateNextDueDate d Frequency.MONTHLY) = monthIdx d + 1 ∧
      (calculateNextDueDate d Frequency.MONTHLY).day = d.day ∧
      (calculateNextDueDate d Frequency.MONTHLY).msOfDay = d.msOfDay) ∧
    (daysInMonth (d.year + ((d.month + 1 : Nat) : Int) / 12) ((d.month + 1) % 12) < d.day →
      monthIdx (calculateNextDueDate d Frequency.MONTHLY) = monthIdx d + 2 ∧
      (calculateNextDueDate d Frequency.MONTHLY).day =
        d.day - daysInMonth (d.year + ((d.month + 1 : Nat) : Int) / 12) ((d.month + 1) % 12) ∧
      (calculateNextDueDate d Frequency.MONTHLY).msOfDay = d.msOfDay)) ∧
  ((d.day ≤ daysInMonth (d.year + ((d.month + 3 : Nat) : Int) / 12) ((d.month + 3) % 12) →
      monthIdx (calculateNextDueDate d Frequency.QUARTERLY) = monthIdx d + 3 ∧
      (calculateNextDueDate d Frequency.QUARTERLY).day = d.day ∧
      (calculateNextDueDate d Frequency.QUARTERLY).msOfDay = d.msOfDay) ∧
    (daysInMonth (d.year + ((d.month + 3 : Nat) : Int) / 12) ((d.month + 3) % 12) < d.day →
      monthIdx (calculateNextDueDate d Frequency.QUARTERLY) = monthIdx d + 4 ∧
      (calculateNextDueDate d Frequency.QUARTERLY).day =
        d.day - daysInMonth (d.year + ((d.month + 3 : Nat) : Int) / 12) ((d.month + 3) % 12) ∧
      (calculateNextDueDate d Frequency.QUARTERLY).msOfDay = d.msOfDay)) ∧
  ((d.day ≤ daysInMonth (d.year + 1) d.month →
      calculateNextDueDate d Frequency.YEARLY = ⟨d.year + 1, d.month, d.day, d.msOfDay⟩) ∧
    (d.month = 1 → d.day = 29 →
      calculateNextDueDate d Frequency.YEARLY = ⟨d.year + 1, 2, 1, d.msOfDay⟩)) ∧
  (calculateNextDueDate (calculateNextDueDate d Frequency.DAILY) Frequency.DAILY =
      addDays d 2 ∧
    calculateNextDueDate (calculateNextDueDate d Frequency.WEEKLY) Frequency.WEEKLY =
      addDays d 14 ∧
    calculateNextDueDate (calculateNextDueDate d Frequency.BIWEEKLY) Frequency.BIWEEKLY =
      addDays d 28) ∧
  (d.day ≤ 28 →
    calculateNextDueDate (calculateNextDueDate d Frequency.MONTHLY) Frequency.MONTHLY =
        setMonthJS d 2 ∧
      calculateNextDueDate (calculateNextDueDate d Frequency.QUARTERLY) Frequency.QUARTERLY =
        setMonthJS d 6) ∧
  calculateNextDueDate (calculateNextDueDate d Frequency.YEARLY) Frequency.YEARLY =
    setFullYearJS d 2

/-- Claim C5, amended. `calculateNextDueDate` is a pure total function (a
plain `def`), and on every valid date each frequency advances by exactly
one period under the platform (JS `Date`) overflow rules; applying it
twice advances exactly two periods for DAILY, WEEKLY, BIWEEKLY and YEARLY,
and for MONTHLY and QUARTERLY whenever the day-of-month is at most 28 —
but not in general at month-end, where the overflow normalisation
compounds (see the counterexample: Jan 31 + MONTHLY twice is Apr 3, not
Mar 31). -/
theorem claim_C5_amended (d : JSDate) (h : d.Valid) : Claim5Amended d := by
  have hfeb29leap : d.month = 1 → d.day = 29 → isLeap d.year = true := by
    intro hm1 hd29
    obtain ⟨hm, hd1, hd2, hms⟩ := h
    rw [hm1, hd29, daysInMonth_feb] at hd2
    by_contra hc
    rw [Bool.not_eq_true] at hc
    rw [hc] at hd2
    simp at hd2
  refine ⟨?_, ?_, ?_, ⟨?_, ?_⟩, ⟨?_, ?_⟩, ⟨?_, ?_⟩, ⟨?_, ?_, ?_⟩, ?_, ?_⟩
  · exact ⟨(epochDays_addDays 1 d h).1, (epochDays_addDays 1 d h).2.2⟩
  · exact ⟨(epochDays_addDays 7 d h).1, (epochDays_addDays 7 d h).2.2⟩
  · exact ⟨(epochDays_addDays 14 d h).1, (epochDays_addDays 14 d h).2.2⟩
  · exact fun hno => monthIdx_setMonthJS d 1 hno
  · intro hov
    have hh := setMonthJS_overflow d 1 hov
    refine ⟨?_, hh.2.1, hh.2.2⟩
    have h1 := hh.1
    show monthIdx (setMonthJS d 1) = monthIdx d + 2
    omega
  · exact fun hno => monthIdx_setMonthJS d 3 hno
  · intro hov
    have hh := setMonthJS_overflow d 3 hov
    refine ⟨?_, hh.2.1, hh.2.2⟩
    have h1 := hh.1
    show monthIdx (setMonthJS d 3) = monthIdx d + 4
    omega
  · exact fun hno => setFullYearJS_no_overflow d 1 hno
  · intro hm1 hd29
    have hleap := hfeb29leap hm1 hd29
    have c1 : isLeap (d.year + ((1 : Nat) : Int)) = false := by
      push_cast
      exact (isLeap_succ_false d.year hleap).1
    exact setFullYearJS_feb29 d 1 hm1 hd29 c1
  · exact addDays_addDays d 1 1
  · exact addDays_addDays d 7 7
  · exact addDays_addDays d 14 14
  · exact fun hd28 => ⟨setMonthJS_comp d 1 1 hd28, setMonthJS_comp d 3 3 hd28⟩
  · exact yearly_twice d h

/-- Claim C5, counterexample to the claim as stated: from Jan 31 2023,
applying `calculateNextDueDate` with MONTHLY twice yields Apr 3 2023,
whereas advancing two calendar periods (two months, day preserved — Mar 31
2023 is a perfectly valid date needing no overflow policy) does not, so
double application does not advance exactly two periods at month-end. -/
theorem claim_C5_counterexample :
    calculateNextDueDate (calculateNextDueDate ⟨2023, 0, 31, 0⟩ Frequency.MONTHLY)
        Frequency.MONTHLY = ⟨2023, 3, 3, 0⟩ ∧
      setMonthJS ⟨2023, 0, 31, 0⟩ 2 = ⟨2023, 2, 31, 0⟩ ∧
      calculateNextDueDate (calculateNextDueDate ⟨2023, 0, 31, 0⟩ Frequency.MONTHLY)
          Frequency.MONTHLY ≠ setMonthJS ⟨2023, 0, 31, 0⟩ 2 := by
  refine ⟨by decide, by decide, by decide⟩

/-- Witness for C5: the amended claim instantiated at the valid date
15 Jan 2024, 02:00:00.000. -/
theorem claim_C5_amended_witness :
    JSDate.Valid ⟨2024, 0, 15, 7200000⟩ ∧ Claim5Amended ⟨2024, 0, 15, 7200000⟩ :=
  ⟨by decide, claim_C5_amended ⟨2024, 0, 15, 7200000⟩ (by decide)⟩

/-- Store well-formedness: transaction ids are unique (the primary key of
the `Transaction` table). -/
def WF (s : State) : Prop := (s.txns.map Txn.id).Nodup

/-- The ledger invariant: every budget row's `spent` equals the sum of the
amounts of the surviving EXPENSE transactions attributed to its key. -/
def Inv (s : State) : Prop :=
  ∀ b ∈ s.budgets, b.spent = keySum s.txns b.categoryId b.month b.year

/-- The keySum filter predicate, named for reuse. -/
def keyPred (cid : Nat) (m : Nat) (y : Int) (t : Txn) : Bool :=
  t.type == TxnType.EXPENSE && t.categoryId == cid && monthOf t.date == m && t.date.year == y

theorem keySum_eq (ts : List Txn) (cid : Nat) (m : Nat) (y : Int) :
    keySum ts cid m y = ((ts.filter (keyPred cid m y)).map Txn.amount).sum := rfl

theorem contrib_eq (t : Txn) (cid : Nat) (m : Nat) (y : Int) :
    contrib t cid m y = if keyPred cid m y t then t.amount else 0 := rfl

theorem keySum_nil (cid : Nat) (m : Nat) (y : Int) : keySum [] cid m y = 0 := rfl

theorem keySum_cons (t : Txn) (ts : List Txn) (cid : Nat) (m : Nat) (y : Int) :
    keySum (t :: ts) cid m y = contrib t cid m y + keySum ts cid m y := by
  rw [keySum_eq, keySum_eq, contrib_eq, List.filter_cons]
  split_ifs with hc
  · simp
  · simp

theorem keySum_append_single (ts : List Txn) (t : Txn) (cid : Nat) (m : Nat) (y : Int) :
    keySum (ts ++ [t]) cid m y = keySum ts cid m y + contrib t cid m y := by
  induction ts with
  | nil =>
    rw [List.nil_append, keySum_cons, keySum_nil]
    ring
  | cons hd tl ih =>
    rw [List.cons_append, keySum_cons, keySum_cons, ih]
    ring

/-- When a transaction's key data matches, its contribution is its amount. -/
theorem contrib_amount (t : Txn) (cid : Nat) (m : Nat) (y : Int)
    (h : t.type = TxnType.EXPENSE ∧ t.categoryId = cid ∧ monthOf t.date = m ∧ t.date.year = y) :
    contrib t cid m y = t.amount := by
  rw [contrib_eq]
  have : keyPred cid m y t = true := by
    unfold keyPred
    simp only [Bool.and_eq_true, beq_iff_eq]
    exact ⟨⟨⟨h.1, h.2.1⟩, h.2.2.1⟩, h.2.2.2⟩
  rw [this]
  rfl

/-- When a transaction's key data does not match, it contributes nothing. -/
theorem contrib_zero (t : Txn) (cid : Nat) (m : Nat) (y : Int)
    (h : ¬(t.type = TxnType.EXPENSE ∧ t.categoryId = cid ∧ monthOf t.date = m ∧ t.date.year = y)) :
    contrib t cid m y = 0 := by
  rw [contrib_eq]
  have : keyPred cid m y t = false := by
    unfold keyPred
    simp only [Bool.and_eq_false_iff, beq_eq_false_iff_ne, ne_eq]
    by_cases h1 : t.type = TxnType.EXPENSE
    · by_cases h2 : t.categoryId = cid
      · by_cases h3 : monthOf t.date = m
        · by_cases h4 : t.date.year = y
          · exact absurd ⟨h1, h2, h3, h4⟩ h
          · exact Or.inr h4
        · exact Or.inl (Or.inr h3)
      · exact Or.inl (Or.inl (Or.inr h2))
    · exact Or.inl (Or.inl (Or.inl h1))
  rw [this]
  rfl

/-- Replacing the unique transaction with id `i` adjusts every key sum by
removing the old contribution and adding the new one. -/
theorem keySum_replace (ts : List Txn) (i : Nat) (old newt : Txn)
    (hfind : ts.find? (fun t => t.id == i) = some old)
    (hnodup : (ts.map Txn.id).Nodup) (cid : Nat) (m : Nat) (y : Int) :
    keySum (ts.map (fun t => if t.id == i then newt else t)) cid m y =
      keySum ts cid m y - contrib old cid m y + contrib newt cid m y := by
  induction ts with
  | nil => simp at hfind
  | cons hd tl ih =>
    have hnod : hd.id ∉ tl.map Txn.id ∧ (tl.map Txn.id).Nodup := by
      rw [List.map_cons, List.nodup_cons] at hnodup
      exact hnodup
    by_cases hh : (hd.id == i) = true
    · have hold : old = hd := by
        rw [List.find?_cons_of_pos tl hh] at hfind
        exact (Option.some_inj.mp hfind).symm
      subst hold
      have hmap : tl.map (fun t => if t.id == i then newt else t) = tl := by
        have hpt : ∀ t ∈ tl, (if t.id == i then newt else t) = t := by
          intro t ht
          have hne : t.id ≠ old.id := by
            intro hc
            apply hnod.1
            rw [← hc]
            exact List.mem_map_of_mem Txn.id ht
          rw [beq_iff_eq] at hh
          rw [if_neg (by simp only [beq_iff_eq]; omega)]
        calc tl.map (fun t => if t.id == i then newt else t) = tl.map id :=
              List.map_congr_left hpt
          _ = tl := List.map_id tl
      rw [List.map_cons, if_pos hh, hmap, keySum_cons, keySum_cons]
      ring
    · have hfind' : tl.find? (fun t => t.id == i) = some old := by
        rw [List.find?_cons_of_neg tl (by simp [hh])] at hfind
        exact hfind
      have hih := ih hfind' hnod.2
      rw [List.map_cons, if_neg hh, keySum_cons, keySum_cons, hih]
      ring

/-- Deleting the unique transaction with id `i` removes exactly its
contribution from every key sum. -/
theorem keySum_erase (ts : List Txn) (i : Nat) (old : Txn)
    (hfind : ts.find? (fun t => t.id == i) = some old)
    (hnodup : (ts.map Txn.id).Nodup) (cid : Nat) (m : Nat) (y : Int) :
    keySum (ts.filter (fun x => !(x.id == i))) cid m y =
      keySum ts cid m y - contrib old cid m y := by
  induction ts with
  | nil => simp at hfind
  | cons hd tl ih =>
    have hnod : hd.id ∉ tl.map Txn.id ∧ (tl.map Txn.id).Nodup := by
      rw [List.map_cons, List.nodup_cons] at hnodup
      exact hnodup
    by_cases hh : (hd.id == i) = true
    · have hold : old = hd := by
        rw [List.find?_cons_of_pos tl hh] at hfind
        exact (Option.some_inj.mp hfind).symm
      subst hold
      have hfil : tl.filter (fun x => !(x.id == i)) = tl := by
        apply List.filter_eq_self.mpr
        intro t ht
        have hne : t.id ≠ old.id := by
          intro hc
          apply hnod.1
          rw [← hc]
          exact List.mem_map_of_mem Txn.id ht
        rw [beq_iff_eq] at hh
        rw [Bool.not_eq_true', beq_eq_false_iff_ne]
        omega
      rw [List.filter_cons, if_neg (by rw [hh]; simp), hfil, keySum_cons]
      ring
    · have hh' : (hd.id == i) = false := by
        rw [Bool.not_eq_true] at hh
        exact hh
      have hfind' : tl.find? (fun t => t.id == i) = some old := by
        rw [List.find?_cons_of_neg tl (by simp [hh'])] at hfind
        exact hfind
      have hih := ih hfind' hnod.2
      rw [List.filter_cons, if_pos (by rw [hh']; rfl), keySum_cons, keySum_cons, hih]
      ring

theorem budgetMatches_iff (cid : Nat) (m : Nat) (y : Int) (b : Budget) :
    budgetMatches cid m y b = true ↔ b.categoryId = cid ∧ b.month = m ∧ b.year = y := by
  unfold budgetMatches
  simp only [Bool.and_eq_true, beq_iff_eq]
  tauto

/-- `budgetMatches` ignores the `spent` field. -/
theorem budgetMatches_spent (cid : Nat) (m : Nat) (y : Int) (b : Budget) (x : Int) :
    budgetMatches cid m y { b with spent := x } = budgetMatches cid m y b := rfl

/-- Pointwise form of the ledger adjustment: every budget's `spent` moves
by the delta exactly when its key matches. -/
theorem applyDelta_eq (bs : List Budget) (cid : Nat) (m : Nat) (y : Int) (delta : Int) :
    applyDelta bs cid m y delta =
      bs.map (fun b =>
        { b with spent := b.spent + (if budgetMatches cid m y b then delta else 0) }) := by
  unfold applyDelta
  apply List.map_congr_left
  intro b _
  by_cases hb : budgetMatches cid m y b = true
  · rw [if_pos hb, if_pos hb]
  · rw [if_neg hb, if_neg hb]
    cases b
    simp

/-- Every transaction id is below the fresh id. -/
theorem freshTxnId_gt (s : State) : ∀ t ∈ s.txns, t.id < freshTxnId s := by
  intro t ht
  unfold freshTxnId
  have : ∀ (l : List Nat) (x : Nat), x ∈ l → x ≤ l.foldr (fun a b => max a b) 0 := by
    intro l
    induction l with
    | nil => intro x hx; simp at hx
    | cons hd tl ih =>
      intro x hx
      rcases List.mem_cons.mp hx with h | h
      · subst h
        simp only [List.foldr_cons]
        omega
      · have := ih x h
        simp only [List.foldr_cons]
        omega
  have := this (s.txns.map Txn.id) t.id (List.mem_map_of_mem Txn.id ht)
  omega

/-- Successful `transaction.create` written out: the validations pass and
the returned state appends the new row and applies the EXPENSE delta. -/
theorem createTxn_ok_char (s : State) (cid : Nat) (a : Int) (ty : TxnType)
    (dsc : Option String) (dt : JSDate) (ha : 0 < a) (hc : cid ∈ s.cats) :
    createTxn s cid a ty dsc dt = Except.ok
      { s with
          txns := s.txns ++ [⟨freshTxnId s, cid, a, ty, dsc, dt, none⟩],
          budgets := if ty = TxnType.EXPENSE then
              applyDelta s.budgets cid (monthOf dt) dt.year a
            else s.budgets } := by
  unfold createTxn
  rw [if_neg (show ¬(a ≤ 0) by omega), if_pos hc]

/-- Successful `transaction.delete` written out. -/
theorem deleteTxn_ok_char (s : State) (i : Nat) (tx : Txn)
    (hfind : s.txns.find? (fun t => t.id == i) = some tx) :
    deleteTxn s i = Except.ok
      { s with
          txns := s.txns.filter (fun x => !(x.id == i)),
          budgets := if tx.type = TxnType.EXPENSE then
              applyDelta s.budgets tx.categoryId (monthOf tx.date) tx.date.year (-tx.amount)
            else s.budgets } := by
  unfold deleteTxn
  rw [hfind]

/-- Appending an EXPENSE transaction while applying its delta preserves
the ledger invariant. -/
theorem inv_append_expense (s : State) (t : Txn) (hty : t.type = TxnType.EXPENSE)
    (hinv : Inv s) :
    Inv { s with txns := s.txns ++ [t],
                 budgets := applyDelta s.budgets t.categoryId (monthOf t.date) t.date.year
                   t.amount } := by
  intro b' hb'
  simp only at hb' ⊢
  rw [keySum_append_single]
  rw [applyDelta_eq] at hb'
  obtain ⟨b0, hb0, rfl⟩ := List.mem_map.mp hb'
  have hsp := hinv b0 hb0
  by_cases hbm : budgetMatches t.categoryId (monthOf t.date) t.date.year b0 = true
  · obtain ⟨e1, e2, e3⟩ := (budgetMatches_iff _ _ _ _).mp hbm
    have hctr : contrib t b0.categoryId b0.month b0.year = t.amount :=
      contrib_amount _ _ _ _ ⟨hty, e1.symm, e2.symm, e3.symm⟩
    rw [if_pos hbm]
    simp only
    rw [hctr, hsp]
  · have hctr : contrib t b0.categoryId b0.month b0.year = 0 := by
      apply contrib_zero
      intro hcon
      apply hbm
      exact (budgetMatches_iff _ _ _ _).mpr ⟨hcon.2.1.symm, hcon.2.2.1.symm, hcon.2.2.2.symm⟩
    rw [if_neg hbm, hctr, hsp]

/-- Appending a non-EXPENSE transaction with no delta preserves the
ledger invariant. -/
theorem inv_append_income (s : State) (t : Txn) (hty : ¬(t.type = TxnType.EXPENSE))
    (hinv : Inv s) :
    Inv { s with txns := s.txns ++ [t] } := by
  intro b' hb'
  simp only at hb' ⊢
  rw [keySum_append_single]
  have hsp := hinv b' hb'
  have hctr : contrib t b'.categoryId b'.month b'.year = 0 :=
    contrib_zero _ _ _ _ (fun hcon => hty hcon.1)
  rw [hctr, hsp]
  ring

/-- A successful `transaction.create` preserves the ledger invariant. -/
theorem inv_createTxn (s : State) (cid : Nat) (a : Int) (ty : TxnType)
    (dsc : Option String) (dt : JSDate) (s' : State)
    (hok : createTxn s cid a ty dsc dt = Except.ok s') (hinv : Inv s) : Inv s' := by
  unfold createTxn at hok
  split_ifs at hok with h1 h2 hty
  · have h := Except.ok.inj hok
    rw [← h]
    exact inv_append_expense s ⟨freshTxnId s, cid, a, ty, dsc, dt, none⟩ hty hinv
  · have h := Except.ok.inj hok
    rw [← h]
    exact inv_append_income s ⟨freshTxnId s, cid, a, ty, dsc, dt, none⟩ hty hinv

/-- The zod amount guard passes when every provided amount is positive. -/
theorem amount_guard_false (o : Option Int) (h : ∀ a, o = some a → 0 < a) :
    (o.any fun a => decide (a ≤ 0)) = false := by
  cases o with
  | none => rfl
  | some a =>
    have ha := h a rfl
    show decide (a ≤ 0) = false
    simp only [decide_eq_false_iff_not]
    omega

/-- The category ownership guard passes when every provided category is
owned. -/
theorem cat_guard_false (o : Option Nat) (cats : List Nat) (h : ∀ c, o = some c → c ∈ cats) :
    (o.any fun c => decide (c ∉ cats)) = false := by
  cases o with
  | none => rfl
  | some c =>
    have hc := h c rfl
    show decide (c ∉ cats) = false
    simp only [decide_eq_false_iff_not, Decidable.not_not]
    exact hc

/-- The net effect of `transaction.update` on one budget's `spent`: remove
the old EXPENSE contribution when the budget's key matches the old
transaction, add the new contribution when it matches the updated one. -/
def updatedSpent (u : UpdateIn) (ex : Txn) (b : Budget) : Int :=
  b.spent
    - (if ex.type = TxnType.EXPENSE ∧
          budgetMatches ex.categoryId (monthOf ex.date) ex.date.year b = true
        then ex.amount else 0)
    + (if (u.type.getD ex.type) = TxnType.EXPENSE ∧
          budgetMatches (u.categoryId.getD ex.categoryId) (monthOf (u.date.getD ex.date))
            (u.date.getD ex.date).year b = true
        then u.amount.getD ex.amount else 0)

/-- The two sequential `updateMany` ledger adjustments of
`transaction.update` amount to the pointwise `updatedSpent` formula. -/
theorem update_budgets_formula (s : State) (u : UpdateIn) (ex : Txn) :
    (if (u.type.getD ex.type) = TxnType.EXPENSE then
        applyDelta
          (if ex.type = TxnType.EXPENSE then
            applyDelta s.budgets ex.categoryId (monthOf ex.date) ex.date.year (-ex.amount)
          else s.budgets)
          (u.categoryId.getD ex.categoryId) (monthOf (u.date.getD ex.date))
          (u.date.getD ex.date).year (u.amount.getD ex.amount)
      else
        (if ex.type = TxnType.EXPENSE then
          applyDelta s.budgets ex.categoryId (monthOf ex.date) ex.date.year (-ex.amount)
        else s.budgets))
    = s.budgets.map (fun b => { b with spent := updatedSpent u ex b }) := by
  by_cases hold : ex.type = TxnType.EXPENSE <;>
    by_cases hnew : (u.type.getD ex.type) = TxnType.EXPENSE
  · rw [if_pos hold, if_pos hnew, applyDelta_eq, applyDelta_eq, List.map_map]
    apply List.map_congr_left
    intro b _
    simp only [Function.comp_apply, budgetMatches_spent, updatedSpent]
    by_cases hb1 : budgetMatches ex.categoryId (monthOf ex.date) ex.date.year b = true
    · by_cases hb2 : budgetMatches (u.categoryId.getD ex.categoryId)
          (monthOf (u.date.getD ex.date)) (u.date.getD ex.date).year b = true
      · rw [if_pos hb1, if_pos hb2, if_pos ⟨hold, hb1⟩, if_pos ⟨hnew, hb2⟩]
        congr 1
      · rw [if_pos hb1, if_neg hb2, if_pos ⟨hold, hb1⟩, if_neg (fun h => hb2 h.2)]
        congr 1
    · by_cases hb2 : budgetMatches (u.categoryId.getD ex.categoryId)
          (monthOf (u.date.getD ex.date)) (u.date.getD ex.date).year b = true
      · rw [if_neg hb1, if_pos hb2, if_neg (fun h => hb1 h.2), if_pos ⟨hnew, hb2⟩]
        congr 1
      · rw [if_neg hb1, if_neg hb2, if_neg (fun h => hb1 h.2), if_neg (fun h => hb2 h.2)]
        congr 1
  · rw [if_neg hnew, if_pos hold, applyDelta_eq]
    apply List.map_congr_left
    intro b _
    simp only [updatedSpent]
    by_cases hb1 : budgetMatches ex.categoryId (monthOf ex.date) ex.date.year b = true
    · rw [if_pos hb1, if_pos ⟨hold, hb1⟩, if_neg (fun h => hnew h.1)]
      congr 1
      ring
    · rw [if_neg hb1, if_neg (fun h => hb1 h.2), if_neg (fun h => hnew h.1)]
      congr 1
      ring
  · rw [if_pos hnew, if_neg hold, applyDelta_eq]
    apply List.map_congr_left
    intro b _
    simp only [updatedSpent]
    by_cases hb2 : budgetMatches (u.categoryId.getD ex.categoryId)
        (monthOf (u.date.getD ex.date)) (u.date.getD ex.date).year b = true
    · rw [if_pos hb2, if_neg (fun h => hold h.1), if_pos ⟨hnew, hb2⟩]
      congr 1
      ring
    · rw [if_neg hb2, if_neg (fun h => hold h.1), if_neg (fun h => hb2 h.2)]
      congr 1
      ring
  · rw [if_neg hnew, if_neg hold]
    have : ∀ b ∈ s.budgets, b = { b with spent := updatedSpent u ex b } := by
      intro b _
      simp only [updatedSpent]
      rw [if_neg (fun h => hold h.1), if_neg (fun h => hnew h.1)]
      cases b
      simp
    calc s.budgets = s.budgets.map id := (List.map_id s.budgets).symm
      _ = s.budgets.map (fun b => { b with spent := updatedSpent u ex b }) :=
        List.map_congr_left this

/-- Successful `transaction.update` written out: the guards pass, the row
with the input id is replaced by the field-merged row, and every budget's
`spent` moves by the `updatedSpent` formula. -/
theorem updateTxn_ok_char (s : State) (u : UpdateIn) (ex : Txn)
    (hfind : s.txns.find? (fun t => t.id == u.id) = some ex)
    (hamt : ∀ a, u.amount = some a → 0 < a)
    (hcat : ∀ c, u.categoryId = some c → c ∈ s.cats) :
    updateTxn s u = Except.ok
      { s with
          txns := s.txns.map (fun t => if t.id == u.id then appliedTxn u ex else t),
          budgets := s.budgets.map (fun b => { b with spent := updatedSpent u ex b }) } := by
  have hv := amount_guard_false u.amount hamt
  have hcv := cat_guard_false u.categoryId s.cats hcat
  unfold updateTxn
  rw [if_neg (show ¬((u.amount.any fun a => decide (a ≤ 0)) = true) by rw [hv]; simp)]
  rw [hfind]
  show (if (u.categoryId.any fun c => decide (c ∉ s.cats)) = true then
      Except.error Err.notFound
    else _) = _
  rw [if_neg (show ¬((u.categoryId.any fun c => decide (c ∉ s.cats)) = true) by rw [hcv]; simp)]
  have hb := update_budgets_formula s u ex
  simp only
  split_ifs at hb ⊢
  · conv_lhs => rw [hb]
  · conv_lhs => rw [hb]
  · conv_lhs => rw [hb]
  · conv_lhs => rw [hb]

/-- The reversal term of `updatedSpent` is the old transaction's key
contribution. -/
theorem ite_old_eq_contrib (ex : Txn) (b : Budget) :
    (if ex.type = TxnType.EXPENSE ∧
        budgetMatches ex.categoryId (monthOf ex.date) ex.date.year b = true
      then ex.amount else 0) = contrib ex b.categoryId b.month b.year := by
  by_cases hc : ex.type = TxnType.EXPENSE ∧
      budgetMatches ex.categoryId (monthOf ex.date) ex.date.year b = true
  · obtain ⟨e1, e2, e3⟩ := (budgetMatches_iff _ _ _ _).mp hc.2
    rw [if_pos hc, contrib_amount ex _ _ _ ⟨hc.1, e1.symm, e2.symm, e3.symm⟩]
  · rw [if_neg hc, contrib_zero ex _ _ _ (fun h => hc
      ⟨h.1, (budgetMatches_iff _ _ _ _).mpr ⟨h.2.1.symm, h.2.2.1.symm, h.2.2.2.symm⟩⟩)]

/-- The application term of `updatedSpent` is the updated transaction's
key contribution. -/
theorem ite_new_eq_contrib (u : UpdateIn) (ex : Txn) (b : Budget) :
    (if (u.type.getD ex.type) = TxnType.EXPENSE ∧
        budgetMatches (u.categoryId.getD ex.categoryId) (monthOf (u.date.getD ex.date))
          (u.date.getD ex.date).year b = true
      then u.amount.getD ex.amount else 0) =
    contrib (appliedTxn u ex) b.categoryId b.month b.year := by
  by_cases hc : (u.type.getD ex.type) = TxnType.EXPENSE ∧
      budgetMatches (u.categoryId.getD ex.categoryId) (monthOf (u.date.getD ex.date))
        (u.date.getD ex.date).year b = true
  · obtain ⟨e1, e2, e3⟩ := (budgetMatches_iff _ _ _ _).mp hc.2
    rw [if_pos hc, contrib_amount (appliedTxn u ex) _ _ _ ⟨hc.1, e1.symm, e2.symm, e3.symm⟩]
    rfl
  · rw [if_neg hc, contrib_zero (appliedTxn u ex) _ _ _ (fun h => hc
      ⟨h.1, (budgetMatches_iff _ _ _ _).mpr ⟨h.2.1.symm, h.2.2.1.symm, h.2.2.2.symm⟩⟩)]

/-- Inversion of a successful `transaction.update`: the guards passed,
some owned row was found, and the result state is the characterised one. -/
theorem updateTxn_ok_inversion (s : State) (u : UpdateIn) (s' : State)
    (hok : updateTxn s u = Except.ok s') :
    ∃ ex, s.txns.find? (fun t => t.id == u.id) = some ex ∧
      s' = { s with
          txns := s.txns.map (fun t => if t.id == u.id then appliedTxn u ex else t),
          budgets := s.budgets.map (fun b => { b with spent := updatedSpent u ex b }) } := by
  unfold updateTxn at hok
  split at hok
  · simp at hok
  split at hok
  · simp at hok
  · rename_i ex heq
    refine ⟨ex, heq, ?_⟩
    split at hok
    · simp at hok
    · have hb := update_budgets_formula s u ex
      have h := Except.ok.inj hok
      rw [← h]
      split_ifs at hb ⊢
      · conv_lhs => rw [hb]
      · conv_lhs => rw [hb]
      · conv_lhs => rw [hb]
      · conv_lhs => rw [hb]

/-- A successful `transaction.update` preserves the ledger invariant (on a
well-formed store). -/
theorem inv_updateTxn (s : State) (u : UpdateIn) (s' : State) (hwf : WF s)
    (hok : updateTxn s u = Except.ok s') (hinv : Inv s) : Inv s' := by
  obtain ⟨ex, hf, rfl⟩ := updateTxn_ok_inversion s u s' hok
  intro b' hb'
  simp only at hb' ⊢
  obtain ⟨b0, hb0, rfl⟩ := List.mem_map.mp hb'
  simp only
  rw [keySum_replace s.txns u.id ex (appliedTxn u ex) hf hwf]
  unfold updatedSpent
  rw [ite_old_eq_contrib ex b0, ite_new_eq_contrib u ex b0, hinv b0 hb0]

/-- Inversion of a successful `transaction.delete`: an owned row was
found, and the result removes it and reverses any EXPENSE delta. -/
theorem deleteTxn_ok_inversion (s : State) (i : Nat) (s' : State)
    (hok : deleteTxn s i = Except.ok s') :
    ∃ tx, s.txns.find? (fun t => t.id == i) = some tx ∧
      s' = { s with
          txns := s.txns.filter (fun x => !(x.id == i)),
          budgets := if tx.type = TxnType.EXPENSE then
              applyDelta s.budgets tx.categoryId (monthOf tx.date) tx.date.year (-tx.amount)
            else s.budgets } := by
  unfold deleteTxn at hok
  split at hok
  · simp at hok
  · rename_i tx heq
    exact ⟨tx, heq, (Except.ok.inj hok).symm⟩

/-- A successful `transaction.delete` preserves the ledger invariant (on a
well-formed store). -/
theorem inv_deleteTxn (s : State) (i : Nat) (s' : State) (hwf : WF s)
    (hok : deleteTxn s i = Except.ok s') (hinv : Inv s) : Inv s' := by
  obtain ⟨tx, hf, rfl⟩ := deleteTxn_ok_inversion s i s' hok
  intro b' hb'
  simp only at hb' ⊢
  rw [keySum_erase s.txns i tx hf hwf]
  by_cases hty : tx.type = TxnType.EXPENSE
  · rw [if_pos hty] at hb'
    rw [applyDelta_eq] at hb'
    obtain ⟨b0, hb0, rfl⟩ := List.mem_map.mp hb'
    simp only
    rw [hinv b0 hb0]
    by_cases hbm : budgetMatches tx.categoryId (monthOf tx.date) tx.date.year b0 = true
    · obtain ⟨e1, e2, e3⟩ := (budgetMatches_iff _ _ _ _).mp hbm
      rw [if_pos hbm, contrib_amount tx _ _ _ ⟨hty, e1.symm, e2.symm, e3.symm⟩]
      ring
    · rw [if_neg hbm, contrib_zero tx _ _ _ (fun h => hbm
        ((budgetMatches_iff _ _ _ _).mpr ⟨h.2.1.symm, h.2.2.1.symm, h.2.2.2.symm⟩))]
      ring
  · rw [if_neg hty] at hb'
    rw [hinv b' hb', contrib_zero tx _ _ _ (fun h => hty h.1)]
    ring

/-- `transaction.create` preserves id uniqueness. -/
theorem wf_createTxn (s : State) (cid : Nat) (a : Int) (ty : TxnType)
    (dsc : Option String) (dt : JSDate) (s' : State)
    (hok : createTxn s cid a ty dsc dt = Except.ok s') (hwf : WF s) : WF s' := by
  unfold createTxn at hok
  split_ifs at hok with h1 h2 hty <;>
    [skip; skip] <;>
    · have h := Except.ok.inj hok
      rw [← h]
      unfold WF
      simp only [List.map_append, List.map_cons, List.map_nil]
      rw [List.nodup_append]
      refine ⟨hwf, List.nodup_singleton _, ?_⟩
      intro x hx hx'
      simp only [List.mem_singleton] at hx'
      subst hx'
      obtain ⟨t, ht, htid⟩ := List.mem_map.mp hx
      have := freshTxnId_gt s t ht
      omega

/-- `transaction.update` preserves id uniqueness: the replaced row keeps
the id of the row it replaces. -/
theorem wf_updateTxn (s : State) (u : UpdateIn) (s' : State)
    (hok : updateTxn s u = Except.ok s') (hwf : WF s) : WF s' := by
  obtain ⟨ex, hf, rfl⟩ := updateTxn_ok_inversion s u s' hok
  unfold WF
  simp only
  have hexid0 := List.find?_some hf
  have hexid : (ex.id == u.id) = true := hexid0
  have : (s.txns.map (fun t => if t.id == u.id then appliedTxn u ex else t)).map Txn.id =
      s.txns.map Txn.id := by
    rw [List.map_map]
    apply List.map_congr_left
    intro t _
    by_cases ht : (t.id == u.id) = true
    · simp only [Function.comp_apply, if_pos ht]
      show ex.id = t.id
      rw [beq_iff_eq] at ht hexid
      omega
    · simp only [Function.comp_apply, if_neg ht]
  rw [this]
  exact hwf

/-- `transaction.delete` preserves id uniqueness. -/
theorem wf_deleteTxn (s : State) (i : Nat) (s' : State)
    (hok : deleteTxn s i = Except.ok s') (hwf : WF s) : WF s' := by
  obtain ⟨tx, hf, rfl⟩ := deleteTxn_ok_inversion s i s' hok
  unfold WF
  simp only
  exact List.Nodup.sublist (List.Sublist.map Txn.id (List.filter_sublist s.txns)) hwf

/-- One request preserves well-formedness and the ledger invariant. -/
theorem runOp_preserves (s : State) (op : TxOp) (hwf : WF s) (hinv : Inv s) :
    WF (runOp s op) ∧ Inv (runOp s op) := by
  cases op with
  | create cid a ty dsc dt =>
    cases hok : createTxn s cid a ty dsc dt with
    | ok s' =>
      have hr : runOp s (TxOp.create cid a ty dsc dt) = s' := by
        unfold runOp
        dsimp only
        rw [hok]
      rw [hr]
      exact ⟨wf_createTxn s cid a ty dsc dt s' hok hwf,
        inv_createTxn s cid a ty dsc dt s' hok hinv⟩
    | error e =>
      have hr : runOp s (TxOp.create cid a ty dsc dt) = s := by
        unfold runOp
        dsimp only
        rw [hok]
      rw [hr]
      exact ⟨hwf, hinv⟩
  | update u =>
    cases hok : updateTxn s u with
    | ok s' =>
      have hr : runOp s (TxOp.update u) = s' := by
        unfold runOp
        dsimp only
        rw [hok]
      rw [hr]
      exact ⟨wf_updateTxn s u s' hok hwf, inv_updateTxn s u s' hwf hok hinv⟩
    | error e =>
      have hr : runOp s (TxOp.update u) = s := by
        unfold runOp
        dsimp only
        rw [hok]
      rw [hr]
      exact ⟨hwf, hinv⟩
  | delete i =>
    cases hok : deleteTxn s i with
    | ok s' =>
      have hr : runOp s (TxOp.delete i) = s' := by
        unfold runOp
        dsimp only
        rw [hok]
      rw [hr]
      exact ⟨wf_deleteTxn s i s' hok hwf, inv_deleteTxn s i s' hwf hok hinv⟩
    | error e =>
      have hr : runOp s (TxOp.delete i) = s := by
        unfold runOp
        dsimp only
        rw [hok]
      rw [hr]
      exact ⟨hwf, hinv⟩

/-- Any request sequence preserves well-formedness and the invariant. -/
theorem runOps_preserves (ops : List TxOp) (s : State) (hwf : WF s) (hinv : Inv s) :
    WF (runOps s ops) ∧ Inv (runOps s ops) := by
  induction ops generalizing s with
  | nil => exact ⟨hwf, hinv⟩
  | cons op rest ih =>
    have h := runOp_preserves s op hwf hinv
    exact ih (runOp s op) h.1 h.2

instance (s : State) : Decidable (WF s) := by
  unfold WF; infer_instance

instance (s : State) : Decidable (Inv s) := by
  unfold Inv; infer_instance

/-- A timestamp in the sub-second window the recalculation query misses:
on the last day of its month, strictly after 23:59:59.000. -/
def inFinalSubsecond (d : JSDate) : Prop :=
  d.day = daysInMonth d.year d.month ∧ 86399000 < d.msOfDay

instance (d : JSDate) : Decidable (inFinalSubsecond d) := by
  unfold inFinalSubsecond; infer_instance

/-- The recalculation query window of month `m` (1-based) of year `y`
contains exactly the valid dates of that calendar month outside the final
sub-second window. -/
theorem inRange_iff (m : Nat) (y : Int) (d : JSDate) (hm1 : 1 ≤ m) (hm2 : m ≤ 12)
    (hv : d.Valid) :
    inRange m y d = true ↔ monthOf d = m ∧ d.year = y ∧ ¬ inFinalSubsecond d := by
  obtain ⟨hvm, hd1, hd2, hms⟩ := hv
  unfold inRange dateLE recalcStart recalcEnd JSDate.le inFinalSubsecond monthOf
  simp only [Bool.and_eq_true, decide_eq_true_eq]
  constructor
  · rintro ⟨h1, h2⟩
    have hy : d.year = y := by omega
    have hmm : d.month = m - 1 := by omega
    have hAB : daysInMonth y (m - 1) = daysInMonth d.year d.month := by
      rw [hy, hmm]
    omega
  · rintro ⟨h1, h2, h3⟩
    have hAB : daysInMonth y (m - 1) = daysInMonth d.year d.month := by
      rw [h2]
      congr 1
      omega
    omega

/-- Boolean extensionality via the associated propositions. -/
theorem bool_eq_of_iff (a b : Bool) (h : a = true ↔ b = true) : a = b := by
  cases a <;> cases b <;> simp at h ⊢

/-- On transactions with valid dates outside the final sub-second window,
the month-key sum and the recalculation-query sum coincide. -/
theorem keySum_eq_recalcSum (ts : List Txn) (cid : Nat) (m : Nat) (y : Int)
    (hm1 : 1 ≤ m) (hm2 : m ≤ 12)
    (hts : ∀ t ∈ ts, t.date.Valid ∧ ¬ inFinalSubsecond t.date) :
    keySum ts cid m y = recalcSum ts cid m y := by
  have hpt : ∀ t ∈ ts,
      (t.type == TxnType.EXPENSE && t.categoryId == cid
        && (monthOf t.date == m) && t.date.year == y) =
      (t.type == TxnType.EXPENSE && t.categoryId == cid && inRange m y t.date) := by
    intro t ht
    obtain ⟨hv, hf⟩ := hts t ht
    have hiff := inRange_iff m y t.date hm1 hm2 hv
    apply bool_eq_of_iff
    simp only [Bool.and_eq_true, beq_iff_eq]
    constructor
    · rintro ⟨⟨⟨hA, hB⟩, hC⟩, hD⟩
      exact ⟨⟨hA, hB⟩, hiff.mpr ⟨hC, hD, hf⟩⟩
    · rintro ⟨⟨hA, hB⟩, hC⟩
      obtain ⟨h1', h2', _⟩ := hiff.mp hC
      exact ⟨⟨⟨hA, hB⟩, h1'⟩, h2'⟩
  unfold keySum recalcSum
  rw [List.filter_congr hpt]

/-- Claim C1, amended. Starting from a well-formed store satisfying the
ledger invariant (`spent` equals the month-key sum of surviving EXPENSE
transactions, as holds when budgets are seeded by `getOrCreate` or
repaired by `recalculateSpent`), after ANY uninterrupted sequence of
`transaction.create` / `update` / `delete` requests every budget's `spent`
again equals the exact month-key sum of the surviving EXPENSE
transactions; moreover it equals the value `budget.recalculateSpent`
would compute provided no surviving transaction is dated inside the final
sub-second window (strictly after 23:59:59.000 of the month's last day),
which the recalculation date range excludes although the ledger deltas
include it. -/
theorem claim_C1_amended (s : State) (ops : List TxOp) (hwf : WF s) (hinv : Inv s) :
    Inv (runOps s ops) ∧
    (∀ b ∈ (runOps s ops).budgets, 1 ≤ b.month → b.month ≤ 12 →
      (∀ t ∈ (runOps s ops).txns, t.date.Valid ∧ ¬ inFinalSubsecond t.date) →
      b.spent = recalcSum (runOps s ops).txns b.categoryId b.month b.year) := by
  obtain ⟨hwf', hinv'⟩ := runOps_preserves ops s hwf hinv
  refine ⟨hinv', ?_⟩
  intro b hb hm1 hm2 hts
  rw [hinv' b hb]
  exact keySum_eq_recalcSum _ _ _ _ hm1 hm2 hts

/-- Claim C1, counterexample to the claim as stated: one EXPENSE of 50.00
created at 2024-06-30 23:59:59.500 into a budgeted June 2024 category.
The ledger increments `spent` to 50.00 and the month-key sum is 50.00,
but `recalculateSpent`'s aggregation window (which ends at 23:59:59.000)
computes 0, so `spent` does not equal the value `recalculateSpent` would
compute, and running `recalculateSpent` rewrites `spent` to 0. -/
theorem claim_C1_counterexample :
    (runOps ⟨[1], [], [⟨1, 6, 2024, 40000, 0⟩], []⟩
        [TxOp.create 1 5000 TxnType.EXPENSE none ⟨2024, 5, 30, 86399500⟩]).budgets =
      [⟨1, 6, 2024, 40000, 5000⟩] ∧
    keySum (runOps ⟨[1], [], [⟨1, 6, 2024, 40000, 0⟩], []⟩
        [TxOp.create 1 5000 TxnType.EXPENSE none ⟨2024, 5, 30, 86399500⟩]).txns 1 6 2024 =
      5000 ∧
    recalcSum (runOps ⟨[1], [], [⟨1, 6, 2024, 40000, 0⟩], []⟩
        [TxOp.create 1 5000 TxnType.EXPENSE none ⟨2024, 5, 30, 86399500⟩]).txns 1 6 2024 =
      0 ∧
    (∀ b ∈ (runOps ⟨[1], [], [⟨1, 6, 2024, 40000, 0⟩], []⟩
        [TxOp.create 1 5000 TxnType.EXPENSE none ⟨2024, 5, 30, 86399500⟩]).budgets,
      ¬(b.spent = recalcSum (runOps ⟨[1], [], [⟨1, 6, 2024, 40000, 0⟩], []⟩
        [TxOp.create 1 5000 TxnType.EXPENSE none ⟨2024, 5, 30, 86399500⟩]).txns
          b.categoryId b.month b.year)) ∧
    (recalculateSpent (runOps ⟨[1], [], [⟨1, 6, 2024, 40000, 0⟩], []⟩
        [TxOp.create 1 5000 TxnType.EXPENSE none ⟨2024, 5, 30, 86399500⟩]) 6 2024).budgets =
      [⟨1, 6, 2024, 40000, 0⟩] := by
  refine ⟨by decide, by decide, by decide, by decide, by decide⟩

/-- Witness for C1: the §8 example scenario. Budget(category 1, June 2024,
limit 400.00, spent 0), then create EXPENSE 50.00 on 2024-06-05, update
its amount to 70.00, and delete it; the invariant holds throughout and
the final spent matches the recalculation (here both are 0). -/
theorem claim_C1_amended_witness :
    WF ⟨[1], [], [⟨1, 6, 2024, 40000, 0⟩], []⟩ ∧
    Inv ⟨[1], [], [⟨1, 6, 2024, 40000, 0⟩], []⟩ ∧
    (Inv (runOps ⟨[1], [], [⟨1, 6, 2024, 40000, 0⟩], []⟩
        [TxOp.create 1 5000 TxnType.EXPENSE none ⟨2024, 5, 5, 0⟩,
         TxOp.update ⟨1, none, some 7000, none, none, none⟩,
         TxOp.delete 1]) ∧
      (∀ b ∈ (runOps ⟨[1], [], [⟨1, 6, 2024, 40000, 0⟩], []⟩
          [TxOp.create 1 5000 TxnType.EXPENSE none ⟨2024, 5, 5, 0⟩,
           TxOp.update ⟨1, none, some 7000, none, none, none⟩,
           TxOp.delete 1]).budgets, 1 ≤ b.month → b.month ≤ 12 →
        (∀ t ∈ (runOps ⟨[1], [], [⟨1, 6, 2024, 40000, 0⟩], []⟩
            [TxOp.create 1 5000 TxnType.EXPENSE none ⟨2024, 5, 5, 0⟩,
             TxOp.update ⟨1, none, some 7000, none, none, none⟩,
             TxOp.delete 1]).txns, t.date.Valid ∧ ¬ inFinalSubsecond t.date) →
        b.spent = recalcSum (runOps ⟨[1], [], [⟨1, 6, 2024, 40000, 0⟩], []⟩
            [TxOp.create 1 5000 TxnType.EXPENSE none ⟨2024, 5, 5, 0⟩,
             TxOp.update ⟨1, none, some 7000, none, none, none⟩,
             TxOp.delete 1]).txns b.categoryId b.month b.year)) :=
  ⟨by decide, by decide,
    claim_C1_amended ⟨[1], [], [⟨1, 6, 2024, 40000, 0⟩], []⟩
      [TxOp.create 1 5000 TxnType.EXPENSE none ⟨2024, 5, 5, 0⟩,
       TxOp.update ⟨1, none, some 7000, none, none, none⟩,
       TxOp.delete 1] (by decide) (by decide)⟩

/-- A passed Boolean positivity guard gives the propositional guard. -/
theorem option_all_pos (o : Option Int) (h : (o.all fun a => decide (0 < a)) = true) :
    ∀ a, o = some a → 0 < a := by
  intro a ha
  subst ha
  have : decide (0 < a) = true := h
  exact of_decide_eq_true this

/-- A passed Boolean ownership guard gives the propositional guard. -/
theorem option_all_mem (o : Option Nat) (cats : List Nat)
    (h : (o.all fun c => decide (c ∈ cats)) = true) :
    ∀ c, o = some c → c ∈ cats := by
  intro c hc
  subst hc
  have : decide (c ∈ cats) = true := h
  exact of_decide_eq_true this

/-- Claim C2: a `transaction.update` of an existing transaction `ex` (with
valid provided amount and owned provided category) succeeds, and every
budget row's `spent` changes by exactly: minus the old amount when the old
transaction was an EXPENSE and the row's key is the old (category, month,
year); plus the new amount when the resulting transaction is an EXPENSE
and the row's key is the new (category, month, year); every budget
matching neither key is untouched. Instantiating the types gives all four
transitions: EXPENSE→EXPENSE both terms, EXPENSE→INCOME reversal only,
INCOME→EXPENSE application only, INCOME→INCOME neither. -/
theorem claim_C2 (s : State) (u : UpdateIn) (ex : Txn)
    (hfind : s.txns.find? (fun t => t.id == u.id) = some ex)
    (hamt : (u.amount.all fun a => decide (0 < a)) = true)
    (hcat : (u.categoryId.all fun c => decide (c ∈ s.cats)) = true) :
    ∃ s', updateTxn s u = Except.ok s' ∧
      s'.txns = s.txns.map (fun t => if t.id == u.id then appliedTxn u ex else t) ∧
      s'.budgets = s.budgets.map (fun b => { b with spent :=
        b.spent
          - (if ex.type = TxnType.EXPENSE ∧
                budgetMatches ex.categoryId (monthOf ex.date) ex.date.year b = true
              then ex.amount else 0)
          + (if (u.type.getD ex.type) = TxnType.EXPENSE ∧
                budgetMatches (u.categoryId.getD ex.categoryId)
                  (monthOf (u.date.getD ex.date)) (u.date.getD ex.date).year b = true
              then u.amount.getD ex.amount else 0) }) :=
  ⟨_, updateTxn_ok_char s u ex hfind (option_all_pos _ hamt) (option_all_mem _ _ hcat),
    rfl, rfl⟩

/-- Witness for C2: transaction 1 (EXPENSE 50.00, category 1, June 2024)
is moved to category 2, July 2024, with amount 70.00; the June/category-1
budget is decremented by 50.00, the July/category-2 budget incremented by
70.00, and an unrelated budget untouched. -/
theorem claim_C2_witness :
    (Txn.mk 1 1 5000 TxnType.EXPENSE none ⟨2024, 5, 5, 0⟩ none ::
        ([] : List Txn)).find? (fun t => t.id == 1) =
      some (Txn.mk 1 1 5000 TxnType.EXPENSE none ⟨2024, 5, 5, 0⟩ none) ∧
    (∃ s', updateTxn
        ⟨[1, 2], [Txn.mk 1 1 5000 TxnType.EXPENSE none ⟨2024, 5, 5, 0⟩ none],
          [⟨1, 6, 2024, 40000, 5000⟩, ⟨2, 7, 2024, 30000, 0⟩, ⟨3, 6, 2024, 10000, 777⟩], []⟩
        ⟨1, some 2, some 7000, none, none, some ⟨2024, 6, 9, 0⟩⟩ = Except.ok s' ∧
      s'.budgets = [⟨1, 6, 2024, 40000, 0⟩, ⟨2, 7, 2024, 30000, 7000⟩,
        ⟨3, 6, 2024, 10000, 777⟩]) := by
  constructor
  · decide
  · obtain ⟨s', hok, -, hb⟩ := claim_C2
      ⟨[1, 2], [Txn.mk 1 1 5000 TxnType.EXPENSE none ⟨2024, 5, 5, 0⟩ none],
        [⟨1, 6, 2024, 40000, 5000⟩, ⟨2, 7, 2024, 30000, 0⟩, ⟨3, 6, 2024, 10000, 777⟩], []⟩
      ⟨1, some 2, some 7000, none, none, some ⟨2024, 6, 9, 0⟩⟩
      (Txn.mk 1 1 5000 TxnType.EXPENSE none ⟨2024, 5, 5, 0⟩ none)
      (by decide) (by decide) (by decide)
    refine ⟨s', hok, ?_⟩
    rw [hb]
    decide

/-- Claim C3: a `transaction.update` whose only provided field is the
description leaves every budget row — in particular every `spent` value —
unchanged: the reversal and re-application deltas target the same key
with the same amount and cancel exactly. -/
theorem claim_C3 (s : State) (i : Nat) (dsc : String) (ex : Txn)
    (hfind : s.txns.find? (fun t => t.id == i) = some ex) :
    ∃ s', updateTxn s ⟨i, none, none, none, some dsc, none⟩ = Except.ok s' ∧
      s'.budgets = s.budgets := by
  refine ⟨_, updateTxn_ok_char s ⟨i, none, none, none, some dsc, none⟩ ex hfind
    (fun a ha => Option.noConfusion ha) (fun c hc => Option.noConfusion hc), ?_⟩
  simp only
  have hpt : ∀ b ∈ s.budgets,
      ({ b with spent := updatedSpent ⟨i, none, none, none, some dsc, none⟩ ex b } : Budget)
        = b := by
    intro b _
    unfold updatedSpent
    dsimp only [Option.getD]
    cases b
    simp only
    congr 1
    ring
  have h1 : (s.budgets.map (fun b =>
      { b with spent := updatedSpent ⟨i, none, none, none, some dsc, none⟩ ex b }))
      = s.budgets.map id := List.map_congr_left hpt
  rw [h1, List.map_id]

/-- Witness for C3: changing only the description of transaction 1 leaves
both budget rows exactly as they were. -/
theorem claim_C3_witness :
    (Txn.mk 1 1 5000 TxnType.EXPENSE none ⟨2024, 5, 5, 0⟩ none ::
        ([] : List Txn)).find? (fun t => t.id == 1) =
      some (Txn.mk 1 1 5000 TxnType.EXPENSE none ⟨2024, 5, 5, 0⟩ none) ∧
    (∃ s', updateTxn
        ⟨[1], [Txn.mk 1 1 5000 TxnType.EXPENSE none ⟨2024, 5, 5, 0⟩ none],
          [⟨1, 6, 2024, 40000, 5000⟩, ⟨2, 7, 2024, 30000, 0⟩], []⟩
        ⟨1, none, none, none, some "groceries", none⟩ = Except.ok s' ∧
      s'.budgets = [⟨1, 6, 2024, 40000, 5000⟩, ⟨2, 7, 2024, 30000, 0⟩]) :=
  ⟨by decide,
    claim_C3
      ⟨[1], [Txn.mk 1 1 5000 TxnType.EXPENSE none ⟨2024, 5, 5, 0⟩ none],
        [⟨1, 6, 2024, 40000, 5000⟩, ⟨2, 7, 2024, 30000, 0⟩], []⟩
      1 "groceries" (Txn.mk 1 1 5000 TxnType.EXPENSE none ⟨2024, 5, 5, 0⟩ none)
      (by decide)⟩

/-- The row update `processDue` persists for the due snapshot `r`, applied
to a stored row `q`. -/
def recUpdFun (r : Recurrence) (q : Recurrence) : Recurrence :=
  if q.id == r.id then
    { q with nextDueDate := calculateNextDueDate r.nextDueDate r.frequency,
             isActive := !shouldDeactivate r }
  else q

/-- The store-level effect of persisting `r`'s advancement. -/
def applyRecUpd (r : Recurrence) (rs : List Recurrence) : List Recurrence :=
  rs.map (recUpdFun r)

theorem processStep_txns (acc : State × List (Nat × Nat × Int) × Nat) (r : Recurrence) :
    (processStep acc r).1.txns = acc.1.txns ++ [mkRecTxn acc.2.2 r] := by
  unfold processStep
  dsimp only
  split_ifs <;> rfl

theorem processStep_budgets (acc : State × List (Nat × Nat × Int) × Nat) (r : Recurrence) :
    (processStep acc r).1.budgets = processBudgets acc.1.budgets r := by
  unfold processStep processBudgets
  dsimp only
  split_ifs <;> rfl

theorem processStep_recs (acc : State × List (Nat × Nat × Int) × Nat) (r : Recurrence) :
    (processStep acc r).1.recs = applyRecUpd r acc.1.recs := by
  unfold processStep applyRecUpd recUpdFun
  dsimp only
  split_ifs <;> rfl

theorem processStep_cats (acc : State × List (Nat × Nat × Int) × Nat) (r : Recurrence) :
    (processStep acc r).1.cats = acc.1.cats := by
  unfold processStep
  dsimp only
  split_ifs <;> rfl

theorem processStep_created (acc : State × List (Nat × Nat × Int) × Nat) (r : Recurrence) :
    (processStep acc r).2.1 = acc.2.1 ++ [(r.id, acc.2.2, r.amount)] := rfl

theorem processStep_nid (acc : State × List (Nat × Nat × Int) × Nat) (r : Recurrence) :
    (processStep acc r).2.2 = acc.2.2 + 1 := rfl

theorem processFold_txns (l : List Recurrence) (s : State)
    (cr : List (Nat × Nat × Int)) (nid : Nat) :
    (l.foldl processStep (s, cr, nid)).1.txns = s.txns ++ expectedTxns nid l := by
  induction l generalizing s cr nid with
  | nil =>
    show s.txns = s.txns ++ expectedTxns nid []
    rw [expectedTxns, List.append_nil]
  | cons r l ih =>
    rw [List.foldl_cons]
    have heta : processStep (s, cr, nid) r =
        ((processStep (s, cr, nid) r).1,
         (processStep (s, cr, nid) r).2.1,
         (processStep (s, cr, nid) r).2.2) := rfl
    rw [heta, ih]
    rw [processStep_txns, processStep_nid]
    rw [List.append_assoc]
    rfl

theorem processFold_created (l : List Recurrence) (s : State)
    (cr : List (Nat × Nat × Int)) (nid : Nat) :
    (l.foldl processStep (s, cr, nid)).2.1 = cr ++ expectedTuples nid l := by
  induction l generalizing s cr nid with
  | nil =>
    show cr = cr ++ expectedTuples nid []
    rw [expectedTuples, List.append_nil]
  | cons r l ih =>
    rw [List.foldl_cons]
    have heta : processStep (s, cr, nid) r =
        ((processStep (s, cr, nid) r).1,
         (processStep (s, cr, nid) r).2.1,
         (processStep (s, cr, nid) r).2.2) := rfl
    rw [heta, ih]
    rw [processStep_created, processStep_nid]
    rw [List.append_assoc]
    rfl

theorem processFold_budgets (l : List Recurrence) (s : State)
    (cr : List (Nat × Nat × Int)) (nid : Nat) :
    (l.foldl processStep (s, cr, nid)).1.budgets = l.foldl processBudgets s.budgets := by
  induction l generalizing s cr nid with
  | nil => rfl
  | cons r l ih =>
    rw [List.foldl_cons, List.foldl_cons]
    have heta : processStep (s, cr, nid) r =
        ((processStep (s, cr, nid) r).1,
         (processStep (s, cr, nid) r).2.1,
         (processStep (s, cr, nid) r).2.2) := rfl
    rw [heta, ih]
    rw [processStep_budgets]

theorem processFold_recs (l : List Recurrence) (s : State)
    (cr : List (Nat × Nat × Int)) (nid : Nat) :
    (l.foldl processStep (s, cr, nid)).1.recs =
      l.foldl (fun rs r => applyRecUpd r rs) s.recs := by
  induction l generalizing s cr nid with
  | nil => rfl
  | cons r l ih =>
    rw [List.foldl_cons, List.foldl_cons]
    have heta : processStep (s, cr, nid) r =
        ((processStep (s, cr, nid) r).1,
         (processStep (s, cr, nid) r).2.1,
         (processStep (s, cr, nid) r).2.2) := rfl
    rw [heta, ih]
    rw [processStep_recs]

/-- A fold of row-wise map updates is the map of the per-row fold. -/
theorem foldl_map_comm (l : List Recurrence) (rs : List Recurrence) :
    l.foldl (fun rs r => applyRecUpd r rs) rs =
      rs.map (fun q => l.foldl (fun q r => recUpdFun r q) q) := by
  induction l generalizing rs with
  | nil =>
    rw [List.foldl_nil]
    have : ∀ q ∈ rs, ([] : List Recurrence).foldl (fun q r => recUpdFun r q) q = q := by
      intro q _
      rfl
    rw [show rs.map (fun q => ([] : List Recurrence).foldl (fun q r => recUpdFun r q) q) =
      rs.map id from List.map_congr_left this, List.map_id]
  | cons b l ih =>
    rw [List.foldl_cons]
    show l.foldl (fun rs r => applyRecUpd r rs) (applyRecUpd b rs) = _
    rw [ih (applyRecUpd b rs)]
    unfold applyRecUpd
    rw [List.map_map]
    rfl

/-- Rows whose id never occurs in the due list are untouched by the
per-row fold. -/
theorem perElem_fold_not_mem (l : List Recurrence) (q : Recurrence)
    (h : ∀ r ∈ l, r.id ≠ q.id) :
    l.foldl (fun q r => recUpdFun r q) q = q := by
  induction l with
  | nil => rfl
  | cons r l ih =>
    rw [List.foldl_cons]
    have hne : (q.id == r.id) = false := by
      rw [beq_eq_false_iff_ne]
      have := h r (List.mem_cons_self r l)
      omega
    rw [show recUpdFun r q = q from by unfold recUpdFun; rw [hne]; rfl]
    exact ih (fun r' hr' => h r' (List.mem_cons_of_mem r hr'))

/-- A row occurring (uniquely) in the due list is advanced exactly once by
the per-row fold. -/
theorem perElem_fold_mem (l : List Recurrence) (q : Recurrence) (hmem : q ∈ l)
    (hnd : (l.map Recurrence.id).Nodup)
    (h : ∀ r ∈ l, r.id = q.id → r = q) :
    l.foldl (fun q r => recUpdFun r q) q = advanceRec q := by
  induction l with
  | nil => cases hmem
  | cons r l ih =>
    have hnod : r.id ∉ l.map Recurrence.id ∧ (l.map Recurrence.id).Nodup := by
      rw [List.map_cons, List.nodup_cons] at hnd
      exact hnd
    rw [List.foldl_cons]
    rcases List.mem_cons.mp hmem with hq | hq
    · subst hq
      rw [show recUpdFun q q = advanceRec q from by
        unfold recUpdFun advanceRec
        rw [if_pos (beq_self_eq_true q.id)]]
      apply perElem_fold_not_mem
      intro r' hr'
      show r'.id ≠ (advanceRec q).id
      have : (advanceRec q).id = q.id := rfl
      rw [this]
      intro hc
      exact hnod.1 (hc ▸ List.mem_map_of_mem Recurrence.id hr')
    · have hrne : r.id ≠ q.id := by
        intro hc
        have hrq : r = q := h r (List.mem_cons_self r l) hc
        subst hrq
        exact hnod.1 (List.mem_map_of_mem Recurrence.id hq)
      have hne : (q.id == r.id) = false := by
        rw [beq_eq_false_iff_ne]
        omega
      rw [show recUpdFun r q = q from by unfold recUpdFun; rw [hne]; rfl]
      exact ih hq hnod.2 (fun r' hr' => h r' (List.mem_cons_of_mem r hr'))

/-- On a store with unique recurrence ids, `processDue` persists exactly
the advancement of each due recurrence and leaves the others untouched. -/
theorem processDue_recs (s : State) (now : JSDate)
    (hnd : (s.recs.map Recurrence.id).Nodup) :
    (processDue s now).1.recs =
      s.recs.map (fun q => if dueB now q then advanceRec q else q) := by
  unfold processDue
  dsimp only
  rw [processFold_recs, foldl_map_comm]
  apply List.map_congr_left
  intro q hq
  by_cases hdq : dueB now q = true
  · rw [if_pos hdq]
    apply perElem_fold_mem
    · exact List.mem_filter.mpr ⟨hq, hdq⟩
    · exact List.Nodup.sublist (List.Sublist.map _ (List.filter_sublist _)) hnd
    · intro r hr hid
      exact List.inj_on_of_nodup_map hnd (List.mem_of_mem_filter hr) hq hid
  · rw [if_neg hdq]
    apply perElem_fold_not_mem
    intro r hr hid
    have hrq : r = q := List.inj_on_of_nodup_map hnd (List.mem_of_mem_filter hr) hq hid
    subst hrq
    exact hdq (List.mem_filter.mp hr).2

theorem expectedTuples_length (nid : Nat) (l : List Recurrence) :
    (expectedTuples nid l).length = l.length := by
  induction l generalizing nid with
  | nil => rfl
  | cons r l ih =>
    rw [expectedTuples, List.length_cons, List.length_cons, ih]

/-- Every due recurrence contributes a concrete created transaction. -/
theorem mem_expectedTxns (l : List Recurrence) (r : Recurrence) (hr : r ∈ l) (nid : Nat) :
    ∃ nid', mkRecTxn nid' r ∈ expectedTxns nid l := by
  induction l generalizing nid with
  | nil => cases hr
  | cons hd tl ih =>
    rcases List.mem_cons.mp hr with hh | hh
    · subst hh
      exact ⟨nid, List.mem_cons_self _ _⟩
    · obtain ⟨nid', hmem⟩ := ih hh (nid + 1)
      exact ⟨nid', List.mem_cons_of_mem _ hmem⟩

/-- The deactivation flag holds exactly when an end date exists and the
advanced candidate date passes it. -/
theorem shouldDeactivate_iff (r : Recurrence) :
    shouldDeactivate r = true ↔
      ∃ e, r.endDate = some e ∧
        dateLT e (calculateNextDueDate r.nextDueDate r.frequency) = true := by
  unfold shouldDeactivate
  cases he : r.endDate with
  | none =>
    constructor
    · intro hc
      cases hc
    · rintro ⟨e, he', -⟩
      cases he'
  | some e =>
    constructor
    · intro hc
      exact ⟨e, rfl, hc⟩
    · rintro ⟨e', he', hlt⟩
      have : e' = e := by
        rw [Option.some_inj] at he'
        exact he'.symm
      subst this
      exact hlt

/-- The ledger delta is dropped when no budget row matches the key. -/
theorem applyDelta_no_match (bs : List Budget) (cid : Nat) (m : Nat) (y : Int) (delta : Int)
    (h : ∀ b ∈ bs, budgetMatches cid m y b = false) :
    applyDelta bs cid m y delta = bs := by
  unfold applyDelta
  have hpt : ∀ b ∈ bs, (if budgetMatches cid m y b then { b with spent := b.spent + delta }
      else b) = b := by
    intro b hb
    rw [if_neg (by rw [h b hb]; simp)]
  rw [List.map_congr_left hpt, List.map_id']

theorem foldl_processBudgets_no_match (l : List Recurrence) (bs : List Budget)
    (h : ∀ r ∈ l, r.type = TxnType.EXPENSE →
      ∀ b ∈ bs, budgetMatches r.categoryId (monthOf r.nextDueDate) r.nextDueDate.year b = false) :
    l.foldl processBudgets bs = bs := by
  induction l with
  | nil => rfl
  | cons r l ih =>
    rw [List.foldl_cons]
    have hstep : processBudgets bs r = bs := by
      unfold processBudgets
      by_cases hty : r.type = TxnType.EXPENSE
      · rw [if_pos hty]
        exact applyDelta_no_match _ _ _ _ _ (h r (List.mem_cons_self r l) hty)
      · rw [if_neg hty]
    rw [hstep]
    exact ih (fun r' hr' => h r' (List.mem_cons_of_mem r hr'))

theorem processDue_txns_eq (s : State) (now : JSDate) :
    (processDue s now).1.txns =
      s.txns ++ expectedTxns (freshTxnId s) (s.recs.filter (dueB now)) := by
  unfold processDue
  dsimp only
  rw [processFold_txns]

theorem processDue_tuples_eq (s : State) (now : JSDate) :
    (processDue s now).2.2 =
      expectedTuples (freshTxnId s) (s.recs.filter (dueB now)) := by
  unfold processDue
  dsimp only
  rw [processFold_created, List.nil_append]

theorem processDue_count (s : State) (now : JSDate) :
    (processDue s now).2.1 = (s.recs.filter (dueB now)).length := by
  unfold processDue
  dsimp only
  rw [processFold_created, List.nil_append, expectedTuples_length]

theorem processDue_budgets_eq (s : State) (now : JSDate) :
    (processDue s now).1.budgets =
      (s.recs.filter (dueB now)).foldl processBudgets s.budgets := by
  unfold processDue
  dsimp only
  rw [processFold_budgets]

/-- Claim C6: on a store with unique recurrence ids, `processDue` at clock
`now` processes exactly the recurrences selected by `dueB` (isActive,
nextDueDate ≤ now, endDate null or ≥ now); it creates exactly one
transaction per selected recurrence — dated at the recurrence's current
`nextDueDate`, carrying its categoryId, amount, type and description plus
the `recurrenceId` back-reference (see `mkRecTxn`) — with sequential fresh
ids; it advances each selected recurrence's `nextDueDate` by exactly one
period via `calculateNextDueDate` (see `advanceRec`), leaving all other
recurrences untouched (no fast-forwarding: one occurrence per call); and
it returns the processed count and one (recurrenceId, transactionId,
amount) tuple per created transaction. -/
theorem claim_C6 (s : State) (now : JSDate)
    (hnd : (s.recs.map Recurrence.id).Nodup) :
    (processDue s now).2.1 = (s.recs.filter (dueB now)).length ∧
    (processDue s now).1.txns =
      s.txns ++ expectedTxns (freshTxnId s) (s.recs.filter (dueB now)) ∧
    (processDue s now).2.2 =
      expectedTuples (freshTxnId s) (s.recs.filter (dueB now)) ∧
    (processDue s now).1.recs =
      s.recs.map (fun q => if dueB now q then advanceRec q else q) :=
  ⟨processDue_count s now, processDue_txns_eq s now, processDue_tuples_eq s now,
    processDue_recs s now hnd⟩

/-- Witness for C6: of two recurrences, only the due one (id 7, MONTHLY,
due 2024-01-01 ≤ now = 2024-02-01) is processed: one transaction dated
2024-01-01 is created, its `nextDueDate` becomes 2024-02-01, the other
recurrence is untouched, and the result reports one (7, txnId, 15.99)
tuple. -/
theorem claim_C6_witness :
    ((Recurrence.mk 7 1 1599 TxnType.EXPENSE none Frequency.MONTHLY ⟨2024, 0, 1, 0⟩ none
        ⟨2024, 0, 1, 0⟩ true ::
      Recurrence.mk 8 1 2000 TxnType.EXPENSE none Frequency.WEEKLY ⟨2024, 5, 1, 0⟩ none
        ⟨2024, 5, 1, 0⟩ true :: []).map Recurrence.id).Nodup ∧
    ((processDue ⟨[1], [], [],
        [Recurrence.mk 7 1 1599 TxnType.EXPENSE none Frequency.MONTHLY ⟨2024, 0, 1, 0⟩ none
          ⟨2024, 0, 1, 0⟩ true,
         Recurrence.mk 8 1 2000 TxnType.EXPENSE none Frequency.WEEKLY ⟨2024, 5, 1, 0⟩ none
          ⟨2024, 5, 1, 0⟩ true]⟩ ⟨2024, 1, 1, 0⟩).2.1 =
      ([Recurrence.mk 7 1 1599 TxnType.EXPENSE none Frequency.MONTHLY ⟨2024, 0, 1, 0⟩ none
          ⟨2024, 0, 1, 0⟩ true,
        Recurrence.mk 8 1 2000 TxnType.EXPENSE none Frequency.WEEKLY ⟨2024, 5, 1, 0⟩ none
          ⟨2024, 5, 1, 0⟩ true].filter (dueB ⟨2024, 1, 1, 0⟩)).length ∧
     (processDue ⟨[1], [], [],
        [Recurrence.mk 7 1 1599 TxnType.EXPENSE none Frequency.MONTHLY ⟨2024, 0, 1, 0⟩ none
          ⟨2024, 0, 1, 0⟩ true,
         Recurrence.mk 8 1 2000 TxnType.EXPENSE none Frequency.WEEKLY ⟨2024, 5, 1, 0⟩ none
          ⟨2024, 5, 1, 0⟩ true]⟩ ⟨2024, 1, 1, 0⟩).1.txns =
      [] ++ expectedTxns (freshTxnId ⟨[1], [], [],
        [Recurrence.mk 7 1 1599 TxnType.EXPENSE none Frequency.MONTHLY ⟨2024, 0, 1, 0⟩ none
          ⟨2024, 0, 1, 0⟩ true,
         Recurrence.mk 8 1 2000 TxnType.EXPENSE none Frequency.WEEKLY ⟨2024, 5, 1, 0⟩ none
          ⟨2024, 5, 1, 0⟩ true]⟩)
        ([Recurrence.mk 7 1 1599 TxnType.EXPENSE none Frequency.MONTHLY ⟨2024, 0, 1, 0⟩ none
          ⟨2024, 0, 1, 0⟩ true,
         Recurrence.mk 8 1 2000 TxnType.EXPENSE none Frequency.WEEKLY ⟨2024, 5, 1, 0⟩ none
          ⟨2024, 5, 1, 0⟩ true].filter (dueB ⟨2024, 1, 1, 0⟩)) ∧
     (processDue ⟨[1], [], [],
        [Recurrence.mk 7 1 1599 TxnType.EXPENSE none Frequency.MONTHLY ⟨2024, 0, 1, 0⟩ none
          ⟨2024, 0, 1, 0⟩ true,
         Recurrence.mk 8 1 2000 TxnType.EXPENSE none Frequency.WEEKLY ⟨2024, 5, 1, 0⟩ none
          ⟨2024, 5, 1, 0⟩ true]⟩ ⟨2024, 1, 1, 0⟩).2.2 =
      expectedTuples (freshTxnId ⟨[1], [], [],
        [Recurrence.mk 7 1 1599 TxnType.EXPENSE none Frequency.MONTHLY ⟨2024, 0, 1, 0⟩ none
          ⟨2024, 0, 1, 0⟩ true,
         Recurrence.mk 8 1 2000 TxnType.EXPENSE none Frequency.WEEKLY ⟨2024, 5, 1, 0⟩ none
          ⟨2024, 5, 1, 0⟩ true]⟩)
        ([Recurrence.mk 7 1 1599 TxnType.EXPENSE none Frequency.MONTHLY ⟨2024, 0, 1, 0⟩ none
          ⟨2024, 0, 1, 0⟩ true,
         Recurrence.mk 8 1 2000 TxnType.EXPENSE none Frequency.WEEKLY ⟨2024, 5, 1, 0⟩ none
          ⟨2024, 5, 1, 0⟩ true].filter (dueB ⟨2024, 1, 1, 0⟩)) ∧
     (processDue ⟨[1], [], [],
        [Recurrence.mk 7 1 1599 TxnType.EXPENSE none Frequency.MONTHLY ⟨2024, 0, 1, 0⟩ none
          ⟨2024, 0, 1, 0⟩ true,
         Recurrence.mk 8 1 2000 TxnType.EXPENSE none Frequency.WEEKLY ⟨2024, 5, 1, 0⟩ none
          ⟨2024, 5, 1, 0⟩ true]⟩ ⟨2024, 1, 1, 0⟩).1.recs =
      [Recurrence.mk 7 1 1599 TxnType.EXPENSE none Frequency.MONTHLY ⟨2024, 0, 1, 0⟩ none
          ⟨2024, 0, 1, 0⟩ true,
       Recurrence.mk 8 1 2000 TxnType.EXPENSE none Frequency.WEEKLY ⟨2024, 5, 1, 0⟩ none
          ⟨2024, 5, 1, 0⟩ true].map
        (fun q => if dueB ⟨2024, 1, 1, 0⟩ q then advanceRec q else q)) :=
  ⟨by decide,
    claim_C6 ⟨[1], [], [],
      [Recurrence.mk 7 1 1599 TxnType.EXPENSE none Frequency.MONTHLY ⟨2024, 0, 1, 0⟩ none
        ⟨2024, 0, 1, 0⟩ true,
       Recurrence.mk 8 1 2000 TxnType.EXPENSE none Frequency.WEEKLY ⟨2024, 5, 1, 0⟩ none
        ⟨2024, 5, 1, 0⟩ true]⟩ ⟨2024, 1, 1, 0⟩ (by decide)⟩

/-- Claim C7: on a store with unique recurrence ids, (i) for every
recurrence processed by `processDue`, the persisted `isActive` is false if
and only if the recurrence has an end date that the advanced candidate
date strictly exceeds — and its final transaction is still created in
that case; (ii) `processDue` never flips a recurrence from inactive to
active (inactive recurrences are not selected and stay untouched); and
(iii) a manual `recurrence.update` with `isActive: true` does reactivate
the targeted recurrence. -/
theorem claim_C7 (s : State) (now : JSDate)
    (hnd : (s.recs.map Recurrence.id).Nodup) :
    (∀ r ∈ s.recs, dueB now r = true →
      (∀ q ∈ (processDue s now).1.recs, q.id = r.id →
        (q.isActive = false ↔
          ∃ e, r.endDate = some e ∧
            dateLT e (calculateNextDueDate r.nextDueDate r.frequency) = true)) ∧
      (∃ t ∈ (processDue s now).1.txns, t.recurrenceId = some r.id ∧
        t.date = r.nextDueDate ∧ t.amount = r.amount ∧ t.type = r.type)) ∧
    (∀ r ∈ s.recs, r.isActive = false →
      ∀ q ∈ (processDue s now).1.recs, q.id = r.id → q.isActive = false) ∧
    (∀ u : RecUpdateIn, ∀ s2 : State, recurrenceUpdate s u = Except.ok s2 →
      u.isActive = some true → ∀ q ∈ s2.recs, q.id = u.id → q.isActive = true) := by
  have hrecs := processDue_recs s now hnd
  refine ⟨?_, ?_, ?_⟩
  · intro r hr hdue
    constructor
    · intro q hq hqid
      rw [hrecs] at hq
      obtain ⟨q0, hq0, rfl⟩ := List.mem_map.mp hq
      by_cases hd0 : dueB now q0 = true
      · rw [if_pos hd0] at hqid ⊢
        have hq0id : q0.id = r.id := hqid
        have hq0r : q0 = r := List.inj_on_of_nodup_map hnd hq0 hr hq0id
        subst hq0r
        show (!shouldDeactivate q0) = false ↔ _
        rw [Bool.not_eq_false']
        exact shouldDeactivate_iff q0
      · rw [if_neg hd0] at hqid ⊢
        have hq0r : q0 = r := List.inj_on_of_nodup_map hnd hq0 hr hqid
        subst hq0r
        exact absurd hdue hd0
    · have hf : r ∈ s.recs.filter (dueB now) := List.mem_filter.mpr ⟨hr, hdue⟩
      obtain ⟨nid', hmem⟩ := mem_expectedTxns _ r hf (freshTxnId s)
      refine ⟨mkRecTxn nid' r, ?_, rfl, rfl, rfl, rfl⟩
      rw [processDue_txns_eq]
      exact List.mem_append_right _ hmem
  · intro r hr hina q hq hqid
    rw [hrecs] at hq
    obtain ⟨q0, hq0, rfl⟩ := List.mem_map.mp hq
    by_cases hd0 : dueB now q0 = true
    · rw [if_pos hd0] at hqid ⊢
      have hq0r : q0 = r := List.inj_on_of_nodup_map hnd hq0 hr hqid
      subst hq0r
      unfold dueB at hd0
      rw [hina] at hd0
      simp at hd0
    · rw [if_neg hd0] at hqid ⊢
      have hq0r : q0 = r := List.inj_on_of_nodup_map hnd hq0 hr hqid
      subst hq0r
      exact hina
  · intro u s2 hok hset q hq hqid
    unfold recurrenceUpdate at hok
    split at hok
    · simp at hok
    split at hok
    · simp at hok
    · split at hok
      · simp at hok
      · have h2 := (Except.ok.inj hok).symm
        subst h2
        simp only at hq
        obtain ⟨q0, hq0, rfl⟩ := List.mem_map.mp hq
        by_cases hm : (q0.id == u.id) = true
        · rw [if_pos hm] at hqid ⊢
          show u.isActive.getD q0.isActive = true
          rw [hset]
          rfl
        · rw [if_neg hm] at hqid ⊢
          rw [Bool.not_eq_true, beq_eq_false_iff_ne] at hm
          exact absurd hqid hm

/-- Witness for C7: one due recurrence whose end date 2024-01-15 is
surpassed by the advanced candidate 2024-02-01 — it is deactivated while
its final transaction is still created — one inactive recurrence that
stays inactive, and a manual reactivation of the latter. -/
theorem claim_C7_witness :
    ((Recurrence.mk 7 1 1599 TxnType.EXPENSE none Frequency.MONTHLY ⟨2024, 0, 1, 0⟩
        (some ⟨2024, 0, 15, 0⟩) ⟨2024, 0, 1, 0⟩ true ::
      Recurrence.mk 9 1 500 TxnType.EXPENSE none Frequency.DAILY ⟨2023, 0, 1, 0⟩ none
        ⟨2023, 0, 5, 0⟩ false :: []).map Recurrence.id).Nodup ∧
    ((∀ r ∈ (⟨[1], [], [],
        [Recurrence.mk 7 1 1599 TxnType.EXPENSE none Frequency.MONTHLY ⟨2024, 0, 1, 0⟩
          (some ⟨2024, 0, 15, 0⟩) ⟨2024, 0, 1, 0⟩ true,
         Recurrence.mk 9 1 500 TxnType.EXPENSE none Frequency.DAILY ⟨2023, 0, 1, 0⟩ none
          ⟨2023, 0, 5, 0⟩ false]⟩ : State).recs, dueB ⟨2024, 0, 14, 0⟩ r = true →
      (∀ q ∈ (processDue ⟨[1], [], [],
          [Recurrence.mk 7 1 1599 TxnType.EXPENSE none Frequency.MONTHLY ⟨2024, 0, 1, 0⟩
            (some ⟨2024, 0, 15, 0⟩) ⟨2024, 0, 1, 0⟩ true,
           Recurrence.mk 9 1 500 TxnType.EXPENSE none Frequency.DAILY ⟨2023, 0, 1, 0⟩ none
            ⟨2023, 0, 5, 0⟩ false]⟩ ⟨2024, 0, 14, 0⟩).1.recs, q.id = r.id →
        (q.isActive = false ↔
          ∃ e, r.endDate = some e ∧
            dateLT e (calculateNextDueDate r.nextDueDate r.frequency) = true)) ∧
      (∃ t ∈ (processDue ⟨[1], [], [],
          [Recurrence.mk 7 1 1599 TxnType.EXPENSE none Frequency.MONTHLY ⟨2024, 0, 1, 0⟩
            (some ⟨2024, 0, 15, 0⟩) ⟨2024, 0, 1, 0⟩ true,
           Recurrence.mk 9 1 500 TxnType.EXPENSE none Frequency.DAILY ⟨2023, 0, 1, 0⟩ none
            ⟨2023, 0, 5, 0⟩ false]⟩ ⟨2024, 0, 14, 0⟩).1.txns, t.recurrenceId = some r.id ∧
        t.date = r.nextDueDate ∧ t.amount = r.amount ∧ t.type = r.type)) ∧
    (∀ r ∈ (⟨[1], [], [],
        [Recurrence.mk 7 1 1599 TxnType.EXPENSE none Frequency.MONTHLY ⟨2024, 0, 1, 0⟩
          (some ⟨2024, 0, 15, 0⟩) ⟨2024, 0, 1, 0⟩ true,
         Recurrence.mk 9 1 500 TxnType.EXPENSE none Frequency.DAILY ⟨2023, 0, 1, 0⟩ none
          ⟨2023, 0, 5, 0⟩ false]⟩ : State).recs, r.isActive = false →
      ∀ q ∈ (processDue ⟨[1], [], [],
          [Recurrence.mk 7 1 1599 TxnType.EXPENSE none Frequency.MONTHLY ⟨2024, 0, 1, 0⟩
            (some ⟨2024, 0, 15, 0⟩) ⟨2024, 0, 1, 0⟩ true,
           Recurrence.mk 9 1 500 TxnType.EXPENSE none Frequency.DAILY ⟨2023, 0, 1, 0⟩ none
            ⟨2023, 0, 5, 0⟩ false]⟩ ⟨2024, 0, 14, 0⟩).1.recs, q.id = r.id →
        q.isActive = false) ∧
    (∀ u : RecUpdateIn, ∀ s2 : State,
      recurrenceUpdate ⟨[1], [], [],
        [Recurrence.mk 7 1 1599 TxnType.EXPENSE none Frequency.MONTHLY ⟨2024, 0, 1, 0⟩
          (some ⟨2024, 0, 15, 0⟩) ⟨2024, 0, 1, 0⟩ true,
         Recurrence.mk 9 1 500 TxnType.EXPENSE none Frequency.DAILY ⟨2023, 0, 1, 0⟩ none
          ⟨2023, 0, 5, 0⟩ false]⟩ u = Except.ok s2 →
      u.isActive = some true → ∀ q ∈ s2.recs, q.id = u.id → q.isActive = true)) :=
  ⟨by decide,
    claim_C7 ⟨[1], [], [],
      [Recurrence.mk 7 1 1599 TxnType.EXPENSE none Frequency.MONTHLY ⟨2024, 0, 1, 0⟩
        (some ⟨2024, 0, 15, 0⟩) ⟨2024, 0, 1, 0⟩ true,
       Recurrence.mk 9 1 500 TxnType.EXPENSE none Frequency.DAILY ⟨2023, 0, 1, 0⟩ none
        ⟨2023, 0, 5, 0⟩ false]⟩ ⟨2024, 0, 14, 0⟩ (by decide)⟩

/-- Claim C4: when the (userId, categoryId, month, year) key of an EXPENSE
has no budget row, the ledger delta is silently dropped. (a) A
`transaction.create` of such an EXPENSE succeeds, returns normally, and
neither creates nor modifies any budget row. (b) A `processDue` whose due
EXPENSE recurrences all lack matching budget rows still processes them
normally — the transactions are created and the count and tuples are
returned — while the budget table is left exactly as it was. -/
theorem claim_C4 (s : State) :
    (∀ (cid : Nat) (a : Int) (dsc : Option String) (dt : JSDate), 0 < a → cid ∈ s.cats →
      (∀ b ∈ s.budgets, budgetMatches cid (monthOf dt) dt.year b = false) →
      createTxn s cid a TxnType.EXPENSE dsc dt = Except.ok
        { s with txns := s.txns ++ [⟨freshTxnId s, cid, a, TxnType.EXPENSE, dsc, dt, none⟩] }) ∧
    (∀ now : JSDate,
      (∀ r ∈ s.recs, dueB now r = true → r.type = TxnType.EXPENSE →
        ∀ b ∈ s.budgets,
          budgetMatches r.categoryId (monthOf r.nextDueDate) r.nextDueDate.year b = false) →
      (processDue s now).1.budgets = s.budgets ∧
      (processDue s now).2.1 = (s.recs.filter (dueB now)).length ∧
      (processDue s now).1.txns =
        s.txns ++ expectedTxns (freshTxnId s) (s.recs.filter (dueB now))) := by
  constructor
  · intro cid a dsc dt ha hc hnb
    rw [createTxn_ok_char s cid a TxnType.EXPENSE dsc dt ha hc]
    rw [if_pos rfl, applyDelta_no_match _ _ _ _ _ hnb]
  · intro now hnb
    refine ⟨?_, processDue_count s now, processDue_txns_eq s now⟩
    rw [processDue_budgets_eq]
    apply foldl_processBudgets_no_match
    intro r hr hty
    exact hnb r (List.mem_of_mem_filter hr) (List.mem_filter.mp hr).2 hty

/-- Witness for C4: category 2 of June 2024 has no budget row (the only
budget is for category 1): creating a 12.34 EXPENSE there succeeds with
the budget table untouched, and processing a due EXPENSE recurrence in
category 2 also leaves the budget table untouched while still creating
the transaction and reporting it. -/
theorem claim_C4_witness :
    (∀ (cid : Nat) (a : Int) (dsc : Option String) (dt : JSDate), 0 < a →
      cid ∈ (⟨[1, 2], [], [⟨1, 6, 2024, 40000, 0⟩],
        [Recurrence.mk 7 2 1599 TxnType.EXPENSE none Frequency.MONTHLY ⟨2024, 5, 1, 0⟩ none
          ⟨2024, 5, 1, 0⟩ true]⟩ : State).cats →
      (∀ b ∈ (⟨[1, 2], [], [⟨1, 6, 2024, 40000, 0⟩],
        [Recurrence.mk 7 2 1599 TxnType.EXPENSE none Frequency.MONTHLY ⟨2024, 5, 1, 0⟩ none
          ⟨2024, 5, 1, 0⟩ true]⟩ : State).budgets,
        budgetMatches cid (monthOf dt) dt.year b = false) →
      createTxn ⟨[1, 2], [], [⟨1, 6, 2024, 40000, 0⟩],
        [Recurrence.mk 7 2 1599 TxnType.EXPENSE none Frequency.MONTHLY ⟨2024, 5, 1, 0⟩ none
          ⟨2024, 5, 1, 0⟩ true]⟩ cid a TxnType.EXPENSE dsc dt = Except.ok
        { (⟨[1, 2], [], [⟨1, 6, 2024, 40000, 0⟩],
          [Recurrence.mk 7 2 1599 TxnType.EXPENSE none Frequency.MONTHLY ⟨2024, 5, 1, 0⟩ none
            ⟨2024, 5, 1, 0⟩ true]⟩ : State) with
            txns := [⟨freshTxnId ⟨[1, 2], [], [⟨1, 6, 2024, 40000, 0⟩],
              [Recurrence.mk 7 2 1599 TxnType.EXPENSE none Frequency.MONTHLY ⟨2024, 5, 1, 0⟩
                none ⟨2024, 5, 1, 0⟩ true]⟩, cid, a, TxnType.EXPENSE, dsc, dt, none⟩] }) ∧
    (∀ now : JSDate,
      (∀ r ∈ (⟨[1, 2], [], [⟨1, 6, 2024, 40000, 0⟩],
        [Recurrence.mk 7 2 1599 TxnType.EXPENSE none Frequency.MONTHLY ⟨2024, 5, 1, 0⟩ none
          ⟨2024, 5, 1, 0⟩ true]⟩ : State).recs, dueB now r = true →
        r.type = TxnType.EXPENSE →
        ∀ b ∈ (⟨[1, 2], [], [⟨1, 6, 2024, 40000, 0⟩],
          [Recurrence.mk 7 2 1599 TxnType.EXPENSE none Frequency.MONTHLY ⟨2024, 5, 1, 0⟩ none
            ⟨2024, 5, 1, 0⟩ true]⟩ : State).budgets,
          budgetMatches r.categoryId (monthOf r.nextDueDate) r.nextDueDate.year b = false) →
      (processDue ⟨[1, 2], [], [⟨1, 6, 2024, 40000, 0⟩],
        [Recurrence.mk 7 2 1599 TxnType.EXPENSE none Frequency.MONTHLY ⟨2024, 5, 1, 0⟩ none
          ⟨2024, 5, 1, 0⟩ true]⟩ now).1.budgets = [⟨1, 6, 2024, 40000, 0⟩] ∧
      (processDue ⟨[1, 2], [], [⟨1, 6, 2024, 40000, 0⟩],
        [Recurrence.mk 7 2 1599 TxnType.EXPENSE none Frequency.MONTHLY ⟨2024, 5, 1, 0⟩ none
          ⟨2024, 5, 1, 0⟩ true]⟩ now).2.1 =
        ([Recurrence.mk 7 2 1599 TxnType.EXPENSE none Frequency.MONTHLY ⟨2024, 5, 1, 0⟩ none
          ⟨2024, 5, 1, 0⟩ true].filter (dueB now)).length ∧
      (processDue ⟨[1, 2], [], [⟨1, 6, 2024, 40000, 0⟩],
        [Recurrence.mk 7 2 1599 TxnType.EXPENSE none Frequency.MONTHLY ⟨2024, 5, 1, 0⟩ none
          ⟨2024, 5, 1, 0⟩ true]⟩ now).1.txns =
        [] ++ expectedTxns (freshTxnId ⟨[1, 2], [], [⟨1, 6, 2024, 40000, 0⟩],
          [Recurrence.mk 7 2 1599 TxnType.EXPENSE none Frequency.MONTHLY ⟨2024, 5, 1, 0⟩ none
            ⟨2024, 5, 1, 0⟩ true]⟩)
          ([Recurrence.mk 7 2 1599 TxnType.EXPENSE none Frequency.MONTHLY ⟨2024, 5, 1, 0⟩ none
            ⟨2024, 5, 1, 0⟩ true].filter (dueB now))) :=
  claim_C4 ⟨[1, 2], [], [⟨1, 6, 2024, 40000, 0⟩],
    [Recurrence.mk 7 2 1599 TxnType.EXPENSE none Frequency.MONTHLY ⟨2024, 5, 1, 0⟩ none
      ⟨2024, 5, 1, 0⟩ true]⟩

/-- The copy fold only appends, and appends only zero-spent target-month
copies of source budgets. -/
theorem copyFold_append (tm : Nat) (ty : Int) (pl : List Budget) (bs : List Budget) :
    ∃ l, pl.foldl (copyStep tm ty) bs = bs ++ l ∧
      ∀ nb ∈ l, nb.month = tm ∧ nb.year = ty ∧ nb.spent = 0 ∧
        ∃ pb ∈ pl, nb.categoryId = pb.categoryId ∧ nb.amount = pb.amount := by
  induction pl generalizing bs with
  | nil =>
    refine ⟨[], by rw [List.foldl_nil, List.append_nil], ?_⟩
    intro nb hnb
    cases hnb
  | cons pb pl ih =>
    rw [List.foldl_cons]
    by_cases hex : (bs.any (budgetMatches pb.categoryId tm ty)) = true
    · have hstep : copyStep tm ty bs pb = bs := by
        unfold copyStep
        rw [if_pos hex]
      rw [hstep]
      obtain ⟨l, hl, hprop⟩ := ih bs
      refine ⟨l, hl, ?_⟩
      intro nb hnb
      obtain ⟨h1, h2, h3, qb, hqb, h4⟩ := hprop nb hnb
      exact ⟨h1, h2, h3, qb, List.mem_cons_of_mem pb hqb, h4⟩
    · have hstep : copyStep tm ty bs pb = bs ++ [⟨pb.categoryId, tm, ty, pb.amount, 0⟩] := by
        unfold copyStep
        rw [if_neg hex]
      rw [hstep]
      obtain ⟨l, hl, hprop⟩ := ih (bs ++ [⟨pb.categoryId, tm, ty, pb.amount, 0⟩])
      refine ⟨⟨pb.categoryId, tm, ty, pb.amount, 0⟩ :: l, ?_, ?_⟩
      · rw [hl, List.append_assoc]
        rfl
      · intro nb hnb
        rcases List.mem_cons.mp hnb with hh | hh
        · subst hh
          exact ⟨rfl, rfl, rfl, pb, List.mem_cons_self pb pl, rfl, rfl⟩
        · obtain ⟨h1, h2, h3, qb, hqb, h4⟩ := hprop nb hh
          exact ⟨h1, h2, h3, qb, List.mem_cons_of_mem pb hqb, h4⟩

/-- The copy fold never removes a row. -/
theorem copyFold_mem (tm : Nat) (ty : Int) (pl : List Budget) (bs : List Budget)
    (x : Budget) (hx : x ∈ bs) : x ∈ pl.foldl (copyStep tm ty) bs := by
  obtain ⟨l, hl, -⟩ := copyFold_append tm ty pl bs
  rw [hl]
  exact List.mem_append_left l hx

/-- A source budget whose category has no target-month row yet, and whose
category is unique among the sources, yields a zero-spent copy. -/
theorem copyFold_creates (tm : Nat) (ty : Int) (pl : List Budget) :
    ∀ (bs : List Budget) (pb : Budget), pb ∈ pl →
      (∀ b ∈ bs, budgetMatches pb.categoryId tm ty b = false) →
      (∀ q ∈ pl, q.categoryId = pb.categoryId → q = pb) →
      (Budget.mk pb.categoryId tm ty pb.amount 0) ∈ pl.foldl (copyStep tm ty) bs := by
  induction pl with
  | nil =>
    intro bs pb hpb _ _
    cases hpb
  | cons hd pl ih =>
    intro bs pb hpb hno hdist
    rw [List.foldl_cons]
    by_cases hcat : hd.categoryId = pb.categoryId
    · have hhd : hd = pb := hdist hd (List.mem_cons_self hd pl) hcat
      subst hhd
      have hex : (bs.any (budgetMatches hd.categoryId tm ty)) = false := by
        rw [List.any_eq_false]
        intro b hb
        rw [hno b hb]
        simp
      have hstep : copyStep tm ty bs hd = bs ++ [⟨hd.categoryId, tm, ty, hd.amount, 0⟩] := by
        unfold copyStep
        rw [if_neg (by rw [hex]; simp)]
      rw [hstep]
      apply copyFold_mem
      exact List.mem_append_right bs (List.mem_singleton.mpr rfl)
    · have hpb' : pb ∈ pl := by
        rcases List.mem_cons.mp hpb with hh | hh
        · exfalso
          apply hcat
          rw [← hh]
        · exact hh
      have hstep : ∀ b ∈ copyStep tm ty bs hd, budgetMatches pb.categoryId tm ty b = false := by
        intro b hb
        unfold copyStep at hb
        split_ifs at hb with hex
        · exact hno b hb
        · rcases List.mem_append.mp hb with hh | hh
          · exact hno b hh
          · rw [List.mem_singleton.mp hh]
            apply (Bool.eq_false_iff).mpr
            intro hc
            obtain ⟨e1, -, -⟩ := (budgetMatches_iff _ _ _ _).mp hc
            exact hcat e1
      exact ih (copyStep tm ty bs hd) pb hpb' hstep
        (fun q hq hqc => hdist q (List.mem_cons_of_mem hd hq) hqc)

/-- Claim C8: `budget.copyFromPreviousMonth(targetMonth, targetYear)`
(with unique budget keys, as the store enforces): it fails with the
NOT_FOUND error, exactly when the prior calendar month (target month
minus one, year rolled back at January) has zero budgets — in which case
nothing is written; on success it only appends budget rows, each a copy
of a prior-month budget with the same amount and `spent = 0` in the
target month — so no existing budget row (in particular no target-month
row) is ever overwritten — and for every prior-month budget whose
category has no target-month row one such copy is created. -/
theorem claim_C8 (s : State) (tm : Nat) (ty : Int)
    (hkeys : (s.budgets.map (fun b => (b.categoryId, b.month, b.year))).Nodup) :
    (copyFromPreviousMonth s tm ty = Except.error Err.notFound ↔
      s.budgets.filter (fun b => b.month == (if tm - 1 = 0 then 12 else tm - 1) &&
        b.year == (if tm - 1 = 0 then ty - 1 else ty)) = []) ∧
    (∀ s2, copyFromPreviousMonth s tm ty = Except.ok s2 →
      s2.cats = s.cats ∧ s2.txns = s.txns ∧ s2.recs = s.recs ∧
      (∃ l, s2.budgets = s.budgets ++ l ∧
        ∀ nb ∈ l, nb.month = tm ∧ nb.year = ty ∧ nb.spent = 0 ∧
          ∃ pb ∈ s.budgets.filter (fun b => b.month == (if tm - 1 = 0 then 12 else tm - 1) &&
            b.year == (if tm - 1 = 0 then ty - 1 else ty)),
            nb.categoryId = pb.categoryId ∧ nb.amount = pb.amount) ∧
      (∀ pb ∈ s.budgets.filter (fun b => b.month == (if tm - 1 = 0 then 12 else tm - 1) &&
          b.year == (if tm - 1 = 0 then ty - 1 else ty)),
        (∀ b ∈ s.budgets, budgetMatches pb.categoryId tm ty b = false) →
        (Budget.mk pb.categoryId tm ty pb.amount 0) ∈ s2.budgets)) := by
  constructor
  · unfold copyFromPreviousMonth
    by_cases hemp : (s.budgets.filter (fun b =>
        b.month == (if tm - 1 = 0 then 12 else tm - 1) &&
        b.year == (if tm - 1 = 0 then ty - 1 else ty))).isEmpty = true
    · rw [if_pos hemp]
      constructor
      · intro _
        exact List.isEmpty_iff.mp hemp
      · intro _
        rfl
    · rw [if_neg hemp]
      constructor
      · intro hc
        exact absurd hc (by simp)
      · intro hc
        rw [hc] at hemp
        exact absurd rfl hemp
  · intro s2 hok
    unfold copyFromPreviousMonth at hok
    dsimp only at hok
    by_cases hemp : (s.budgets.filter (fun b =>
        b.month == (if tm - 1 = 0 then 12 else tm - 1) &&
        b.year == (if tm - 1 = 0 then ty - 1 else ty))).isEmpty = true
    · rw [if_pos hemp] at hok
      simp at hok
    · rw [if_neg hemp] at hok
      have h := (Except.ok.inj hok).symm
      subst h
      refine ⟨rfl, rfl, rfl, ?_, ?_⟩
      · simp only
        exact copyFold_append tm ty _ s.budgets
      · intro pb hpb hno
        simp only
        apply copyFold_creates tm ty _ s.budgets pb hpb hno
        intro q hq hqc
        have hq' := List.mem_filter.mp hq
        have hp' := List.mem_filter.mp hpb
        apply List.inj_on_of_nodup_map hkeys hq'.1 hp'.1
        simp only [Bool.and_eq_true, beq_iff_eq] at hq' hp'
        rw [hqc]
        rw [Prod.mk.injEq, Prod.mk.injEq]
        exact ⟨rfl, by omega, by omega⟩

/-- Witness for C8: copying into July 2024 from a June holding budgets for
categories 1 and 2, where category 2 already has a July budget: the
category-1 budget is copied with `spent = 0`, the existing July rows are
untouched, and with an empty source month the call fails NOT_FOUND. -/
theorem claim_C8_witness :
    (([⟨1, 6, 2024, 40000, 1234⟩, ⟨2, 6, 2024, 30000, 0⟩, ⟨2, 7, 2024, 99, 5⟩]
        : List Budget).map (fun b => (b.categoryId, b.month, b.year))).Nodup ∧
    ((copyFromPreviousMonth
        ⟨[1, 2], [], [⟨1, 6, 2024, 40000, 1234⟩, ⟨2, 6, 2024, 30000, 0⟩, ⟨2, 7, 2024, 99, 5⟩],
          []⟩ 7 2024 = Except.error Err.notFound ↔
      ([⟨1, 6, 2024, 40000, 1234⟩, ⟨2, 6, 2024, 30000, 0⟩, ⟨2, 7, 2024, 99, 5⟩]
        : List Budget).filter (fun b => b.month == (if 7 - 1 = 0 then 12 else 7 - 1) &&
          b.year == (if 7 - 1 = 0 then 2024 - 1 else 2024)) = []) ∧
    (∀ s2, copyFromPreviousMonth
        ⟨[1, 2], [], [⟨1, 6, 2024, 40000, 1234⟩, ⟨2, 6, 2024, 30000, 0⟩, ⟨2, 7, 2024, 99, 5⟩],
          []⟩ 7 2024 = Except.ok s2 →
      s2.cats = [1, 2] ∧ s2.txns = [] ∧ s2.recs = [] ∧
      (∃ l, s2.budgets =
          [⟨1, 6, 2024, 40000, 1234⟩, ⟨2, 6, 2024, 30000, 0⟩, ⟨2, 7, 2024, 99, 5⟩] ++ l ∧
        ∀ nb ∈ l, nb.month = 7 ∧ nb.year = 2024 ∧ nb.spent = 0 ∧
          ∃ pb ∈ ([⟨1, 6, 2024, 40000, 1234⟩, ⟨2, 6, 2024, 30000, 0⟩, ⟨2, 7, 2024, 99, 5⟩]
            : List Budget).filter (fun b => b.month == (if 7 - 1 = 0 then 12 else 7 - 1) &&
              b.year == (if 7 - 1 = 0 then 2024 - 1 else 2024)),
            nb.categoryId = pb.categoryId ∧ nb.amount = pb.amount) ∧
      (∀ pb ∈ ([⟨1, 6, 2024, 40000, 1234⟩, ⟨2, 6, 2024, 30000, 0⟩, ⟨2, 7, 2024, 99, 5⟩]
          : List Budget).filter (fun b => b.month == (if 7 - 1 = 0 then 12 else 7 - 1) &&
            b.year == (if 7 - 1 = 0 then 2024 - 1 else 2024)),
        (∀ b ∈ ([⟨1, 6, 2024, 40000, 1234⟩, ⟨2, 6, 2024, 30000, 0⟩, ⟨2, 7, 2024, 99, 5⟩]
          : List Budget), budgetMatches pb.categoryId 7 2024 b = false) →
        (Budget.mk pb.categoryId 7 2024 pb.amount 0) ∈ s2.budgets))) :=
  ⟨by decide,
    claim_C8 ⟨[1, 2], [], [⟨1, 6, 2024, 40000, 1234⟩, ⟨2, 6, 2024, 30000, 0⟩,
      ⟨2, 7, 2024, 99, 5⟩], []⟩ 7 2024 (by decide)⟩

/-- Claim C10: when `budget.getOrCreate` is called for a key whose budget
row already exists (owned category, nonnegative provided amount), the
call succeeds and overwrites both stored fields of that row: `amount`
becomes the input amount — defaulting to 0 when the caller omits it,
silently zeroing the existing limit — and `spent` becomes the freshly
recomputed aggregate of the caller's EXPENSE transactions for that
category over the month's query window. -/
theorem claim_C10 (s : State) (cid : Nat) (m : Nat) (y : Int) (amountIn : Option Int)
    (hc : cid ∈ s.cats)
    (hnn : (amountIn.all fun a => decide (0 ≤ a)) = true)
    (b0 : Budget) (hb0 : b0 ∈ s.budgets) (hm : budgetMatches cid m y b0 = true) :
    ∃ s', getOrCreate s cid m y amountIn = Except.ok s' ∧
      s'.txns = s.txns ∧
      ∀ b ∈ s'.budgets, budgetMatches cid m y b = true →
        b.amount = amountIn.getD 0 ∧ b.spent = recalcSum s.txns cid m y := by
  have hguard : (amountIn.any fun a => decide (a < 0)) = false := by
    cases amountIn with
    | none => rfl
    | some a =>
      have ha : decide (0 ≤ a) = true := hnn
      rw [decide_eq_true_eq] at ha
      show decide (a < 0) = false
      rw [decide_eq_false_iff_not]
      omega
  have hany : (s.budgets.any (budgetMatches cid m y)) = true :=
    List.any_eq_true.mpr ⟨b0, hb0, hm⟩
  unfold getOrCreate
  rw [if_neg (show ¬((amountIn.any fun a => decide (a < 0)) = true) by rw [hguard]; simp)]
  rw [if_pos hc]
  dsimp only
  rw [if_pos hany]
  refine ⟨_, rfl, rfl, ?_⟩
  intro b hb hbm
  simp only at hb
  obtain ⟨b1, hb1, rfl⟩ := List.mem_map.mp hb
  by_cases hmb1 : budgetMatches cid m y b1 = true
  · rw [if_pos hmb1]
    exact ⟨rfl, rfl⟩
  · rw [if_neg hmb1] at hbm ⊢
    exact absurd hbm hmb1

/-- Witness for C10: category 1 of June 2024 already has a budget with
limit 400.00 and spent 12.34; calling `getOrCreate` with the amount
omitted succeeds and leaves the row with `amount = 0` (the zod default)
and `spent` equal to the 55.00 recomputed from the existing June EXPENSE
transaction. -/
theorem claim_C10_witness :
    1 ∈ ([1] : List Nat) ∧
    ((Option.none : Option Int).all fun a => decide (0 ≤ a)) = true ∧
    (⟨1, 6, 2024, 40000, 1234⟩ : Budget) ∈
      ([⟨1, 6, 2024, 40000, 1234⟩] : List Budget) ∧
    budgetMatches 1 6 2024 ⟨1, 6, 2024, 40000, 1234⟩ = true ∧
    (∃ s', getOrCreate
        ⟨[1], [Txn.mk 3 1 5500 TxnType.EXPENSE none ⟨2024, 5, 20, 0⟩ none],
          [⟨1, 6, 2024, 40000, 1234⟩], []⟩ 1 6 2024 none = Except.ok s' ∧
      s'.txns = [Txn.mk 3 1 5500 TxnType.EXPENSE none ⟨2024, 5, 20, 0⟩ none] ∧
      ∀ b ∈ s'.budgets, budgetMatches 1 6 2024 b = true →
        b.amount = (Option.none : Option Int).getD 0 ∧
        b.spent = recalcSum [Txn.mk 3 1 5500 TxnType.EXPENSE none ⟨2024, 5, 20, 0⟩ none]
          1 6 2024) :=
  ⟨by decide, by decide, by decide, by decide,
    claim_C10 ⟨[1], [Txn.mk 3 1 5500 TxnType.EXPENSE none ⟨2024, 5, 20, 0⟩ none],
      [⟨1, 6, 2024, 40000, 1234⟩], []⟩ 1 6 2024 none (by decide) (by decide)
      ⟨1, 6, 2024, 40000, 1234⟩ (by decide) (by decide)⟩

end ExpenseTracker
